import Mathlib

/-!
# Verification of the Test Adapter Converter synchronization engine

This file gives a shallow embedding, in Lean 4, of the conversion /
synchronization engine of the `vscode-test-adapter-converter` extension,
and proves (or refutes) the stated properties of its specification.

Two generations of the converter live in the repository and are embedded
here:

* `Conv` — the current `TestConverter` (testConverter.ts of the shipped
  extension): discovery synchronization based on `TestItemCollection.replace`
  with de-duplication (`unique`), run correlation via `tasksByRunId`,
  the state projector (`onTestEvent` / `onTestSuiteEvent` /
  `ensureChainAnnounced` / `appendState`), and run-time grafting under
  `runningSuiteByRunId`.
* `Gen` — the earlier generation-stamp reconciler (`addItem` /
  `syncItemChildren` with an `ITestMetadata.generation` field), which
  preserves `TestItem` object identity across discovery passes.

Object identity of host `TestItem` objects is modelled by an allocation
counter: every call of the host's `createTestItem` draws a fresh `oid`.
Two test items are "the same identity object" exactly when their `oid`s
are equal.
-/

namespace TAC

/-- Model of `vscode.Uri` as produced by `fileToUri`: either the result of
`vscode.Uri.parse` on the raw string or of `vscode.Uri.file` on a
filesystem path. -/
inductive Uri where
  | parse (s : String)
  | file (s : String)
deriving DecidableEq, Repr

/-- First character class of the regex `/^[a-z][a-z0-9+-.]:/` family:
a lowercase ASCII letter `[a-z]`. -/
def isLowerAz (c : Char) : Bool :=
  'a' ≤ c && c ≤ 'z'

/-- The character class `[a-z0-9+-.]` of `schemeMatcher`.  Note that in a
JavaScript character class `+-.` is the *range* from `'+'` (0x2B) to `'.'`
(0x2E), i.e. the characters `+`, `,`, `-`, `.`. -/
def isSchemeChar (c : Char) : Bool :=
  ('a' ≤ c && c ≤ 'z') || ('0' ≤ c && c ≤ '9') || ('+' ≤ c && c ≤ '.')

/-- Matching of `[a-z0-9+-.]+:` against the rest of the string: consume the
maximal run of class characters and then require `':'`; `seen` records
whether at least one class character has been consumed (the `+`
quantifier).  `':'` itself is not in the class, so the greedy match needs
no backtracking. -/
def scanClass : List Char → Bool → Bool
  | [], _ => false
  | c :: rest, seen => if isSchemeChar c then scanClass rest true else (c == ':' && seen)

/-- `schemeMatcher.test(file)` for `schemeMatcher = /^[a-z][a-z0-9+-.]+:/`:
anchored at the start, a lowercase letter, then at least one class
character, then a colon. -/
def schemeMatcherTest (file : String) : Bool :=
  match file.data with
  | [] => false
  | c :: rest => isLowerAz c && scanClass rest false

/-- `fileToUri`: parse the string as a URI when it starts with a scheme,
else treat it as a filesystem path. -/
def fileToUri (file : String) : Uri :=
  if schemeMatcherTest file then Uri.parse file else Uri.file file

/-- Declarative reading of "begins with a scheme of at least two
characters": a lowercase letter, then `k ≥ 1` further characters of the
class `[a-z0-9+-.]`, then `':'`. -/
def BeginsWithScheme (s : String) : Prop :=
  ∃ c rest k, s.data = c :: rest ∧ isLowerAz c = true ∧ 1 ≤ k ∧
    ((rest.take k).all isSchemeChar = true) ∧ rest.get? k = some ':'

/-! ## Association-list model of JavaScript `Map`

`Map.set` overwrites an existing key in place (keeping insertion order) or
appends; `Map.get` returns the value of the first (unique) matching key;
`Map.delete` removes the key.  `Map.clear` is modelled as `[]`. -/

/-- `Map.set`. -/
def mapSet {α : Type} : List (String × α) → String → α → List (String × α)
  | [], k, v => [(k, v)]
  | (k', v') :: rest, k, v =>
    if k' = k then (k, v) :: rest else (k', v') :: mapSet rest k v

/-- `Map.get` (`undefined` ↦ `none`). -/
def mapGet {α : Type} : List (String × α) → String → Option α
  | [], _ => none
  | (k', v') :: rest, k => if k' = k then some v' else mapGet rest k

/-- `Map.delete`. -/
def mapDelete {α : Type} : List (String × α) → String → List (String × α)
  | [], _ => []
  | (k', v') :: rest, k => if k' = k then rest else (k', v') :: mapDelete rest k

namespace Conv

/-! ## The data model of the shipped `TestConverter` (testConverter.ts)

Legacy descriptors (`TestSuiteInfo | TestInfo` of `vscode-test-adapter-api`)
and the converter-visible state of host `vscode.TestItem` objects. -/

/-- The fields common to `TestSuiteInfo` and `TestInfo` that the converter
reads: `id`, `label`, `description`, `file`, `line`, `errored`, `message`. -/
structure InfoFields where
  id : String
  label : String
  description : Option String := none
  file : Option String := none
  line : Option Nat := none
  errored : Bool := false
  message : Option String := none
deriving DecidableEq, Repr

/-- A legacy descriptor: `TestSuiteInfo` (`type: 'suite'`, with a `children`
array) or `TestInfo` (`type: 'test'`, no `children` member). -/
inductive TestItemInfo where
  | suite (info : InfoFields) (children : List TestItemInfo)
  | test (info : InfoFields)

/-- The common fields of a descriptor. -/
def TestItemInfo.info : TestItemInfo → InfoFields
  | .suite f _ => f
  | .test f => f

/-- The descriptor's `id`. -/
def TestItemInfo.id (t : TestItemInfo) : String := t.info.id

/-- `item.type === 'suite'`. -/
def TestItemInfo.isSuite : TestItemInfo → Bool
  | .suite _ _ => true
  | .test _ => false

/-- `'children' in item ? item.children : []`: the `children` member exists
exactly on `TestSuiteInfo`. -/
def TestItemInfo.childList : TestItemInfo → List TestItemInfo
  | .suite _ cs => cs
  | .test _ => []

/-- A `vscode.TestItem.error` value: either a plain string (set from a
descriptor's `message` when `errored`) or the trusted "View details"
Markdown link produced for the synthetic discovery-error item (modelled by
the controller id it links to). -/
inductive TestItemError where
  | text (s : String)
  | markdownViewDetails (controllerId : String)
deriving DecidableEq, Repr

/-- The converter-relevant fields of one host `vscode.TestItem`.  `oid` is
the allocation stamp: each `controller.createTestItem` call draws a fresh
one, so `oid` equality is object identity.  `isSuite` is the `metadata`
side-table entry (`metadata.set(test, { isSuite, converter })`); the
synthetic error item gets no metadata entry, which behaves like
`isSuite: false` wherever `metadata.get(test)?.isSuite` is read. -/
structure VFields where
  oid : Nat
  id : String
  label : String
  uri : Option Uri := none
  description : Option String := none
  range : Option (Nat × Nat × Nat × Nat) := none
  error : Option TestItemError := none
  isSuite : Bool := false
deriving DecidableEq, Repr

/-- A host `vscode.TestItem` with its `children` collection (a collection
keeps insertion order and is keyed by item id). -/
inductive VTestItem where
  | mk (fields : VFields) (children : List VTestItem)

/-- Field record of an item. -/
def VTestItem.fields : VTestItem → VFields
  | .mk f _ => f

/-- Children collection of an item. -/
def VTestItem.children : VTestItem → List VTestItem
  | .mk _ cs => cs

def VTestItem.oid (v : VTestItem) : Nat := v.fields.oid

def VTestItem.id (v : VTestItem) : String := v.fields.id

def VTestItem.isSuite (v : VTestItem) : Bool := v.fields.isSuite

theorem VTestItem.sizeOf_children_lt (v : VTestItem) : sizeOf v.children < sizeOf v := by
  cases v with
  | mk f cs =>
    simp only [VTestItem.children, VTestItem.mk.sizeOf_spec]
    omega

/-- The allocation / id-registry state threaded through item creation:
`controller.createTestItem`'s allocation counter together with the
converter's `itemsById` map. -/
structure Registry where
  nextOid : Nat
  itemsById : List (String × Nat)
deriving DecidableEq, Repr

/-- `unique(arr, project)` (helper of testConverter.ts): keep each element
whose projection was not seen before, accumulating the `seen` set. -/
def uniqueGo {T R : Type} [DecidableEq R] (project : T → R) : List R → List T → List T
  | _, [] => []
  | seen, t :: ts =>
    let r := project t
    if r ∈ seen then uniqueGo project seen ts
    else t :: uniqueGo project (r :: seen) ts

/-- `unique(arr, project)` with an initially empty `seen` set. -/
def unique {T R : Type} [DecidableEq R] (arr : List T) (project : T → R) : List T :=
  uniqueGo project [] arr

theorem sizeOf_uniqueGo_le {T R : Type} [DecidableEq R] [SizeOf T] (project : T → R)
    (seen : List R) (l : List T) : sizeOf (uniqueGo project seen l) ≤ sizeOf l := by
  induction l generalizing seen with
  | nil => simp [uniqueGo]
  | cons t ts ih =>
    simp only [uniqueGo]
    split
    · have := ih seen
      simp only [List.cons.sizeOf_spec]
      omega
    · have := ih (project t :: seen)
      simp only [List.cons.sizeOf_spec]
      omega

mutual

/-- `createTest(item, defaultUri)`: create a fresh host item for the
descriptor (fresh `oid`), record its metadata and `itemsById` entry, copy
`description`, derive `range` from `line`, copy `message` into `error`
when `errored`, and sync its children when the descriptor is a suite. -/
def createTest (item : TestItemInfo) (defaultUri : Option Uri) (reg : Registry) :
    VTestItem × Registry :=
  let oid := reg.nextOid
  let uri : Option Uri :=
    match item.info.file with
    | some f => some (fileToUri f)
    | none => defaultUri
  let reg1 : Registry := ⟨oid + 1, mapSet reg.itemsById item.id oid⟩
  let range : Option (Nat × Nat × Nat × Nat) :=
    match item.info.line with
    | some line => some (line, 0, line + 1, 0)
    | none => none
  let error : Option TestItemError :=
    if item.info.errored then (item.info.message).map TestItemError.text else none
  match item with
  | .suite f cs =>
    let (children, reg2) := syncItemChildrenList cs none reg1
    (VTestItem.mk
      { oid, id := f.id, label := f.label, uri, description := f.description,
        range, error, isSuite := true } children, reg2)
  | .test f =>
    (VTestItem.mk
      { oid, id := f.id, label := f.label, uri, description := f.description,
        range, error, isSuite := false } [], reg1)
termination_by sizeOf item * 2
decreasing_by
  simp_wf
  simp_arith [TestItemInfo.suite.sizeOf_spec]

/-- `syncItemChildren(collection, children, defaultUri)`:
`collection.replace(unique(children, c => c.id).map(item =>
this.createTest(item, defaultUri)))`; returns the new contents of the
collection. -/
def syncItemChildrenList (children : List TestItemInfo) (defaultUri : Option Uri)
    (reg : Registry) : List VTestItem × Registry :=
  createAll (unique children TestItemInfo.id) defaultUri reg
termination_by sizeOf children * 2 + 1
decreasing_by
  simp_wf
  have h := sizeOf_uniqueGo_le (T := TestItemInfo) TestItemInfo.id [] children
  have h2 : sizeOf (unique children TestItemInfo.id) ≤ sizeOf children := by
    simpa [unique] using h
  omega

/-- `.map(item => this.createTest(item, defaultUri))`, threading the
registry left to right. -/
def createAll : List TestItemInfo → Option Uri → Registry → List VTestItem × Registry
  | [], _, reg => ([], reg)
  | t :: ts, defaultUri, reg =>
    let (v, reg1) := createTest t defaultUri reg
    let (vs, reg2) := createAll ts defaultUri reg1
    (v :: vs, reg2)
termination_by l _ _ => sizeOf l * 2
decreasing_by
  all_goals simp_wf
  all_goals omega

end

/-! ## Run sessions (`vscode.TestRun`) and the converter state -/

/-- An `ansi-colors` style applied to part of an output string. -/
inductive ColorTag where
  | green
  | red
  | yellow
  | dim
  | plain
deriving DecidableEq, Repr

/-- A `vscode.TestMessage`, with its optional
`Location(uri, Position(line, 0))`. -/
structure TestMessage where
  message : String
  location : Option (Uri × Nat) := none
deriving DecidableEq, Repr

/-- One `task.appendOutput(...)` call.  `stateLine` is the string composed
by `appendState` — `indent + symbolColor(symbol) + textColor(' label\r\n')`
— recorded together with the item (`oid`) it was rendered from; `raw` is
any other output string, with the optional associated test of the
three-argument overload. -/
inductive OutputEntry where
  | stateLine (oid : Nat) (indentLevel : Nat) (symbol : Char)
      (symbolColor : ColorTag) (textColor : ColorTag) (label : String)
  | raw (text : String) (testOid : Option Nat)
deriving DecidableEq, Repr

/-- One state call made on the `vscode.TestRun`. -/
inductive RunCall where
  | enqueued (oid : Nat)
  | started (oid : Nat)
  | passed (oid : Nat)
  | failed (oid : Nat) (messages : List TestMessage)
  | errored (oid : Nat) (messages : List TestMessage)
  | skipped (oid : Nat)
deriving DecidableEq, Repr

/-- The observable history of one `vscode.TestRun` object. -/
structure TestRunModel where
  output : List OutputEntry := []
  calls : List RunCall := []
deriving DecidableEq, Repr

/-- `IRunningTaskData`: the run with the set of already-announced items
(`announcedTests : Set<vscode.TestItem>`, as allocation ids). -/
structure TaskData where
  task : TestRunModel
  announcedTests : List Nat := []
deriving DecidableEq, Repr

/-- The mutable state of one `TestConverter`: controller items and label,
the `_error` text, the `itemsById` / `tasksByRunId` / `runningSuiteByRunId`
maps and the host's item-allocation counter. -/
structure ConvState where
  items : List VTestItem := []
  controllerLabel : String := ""
  errorText : Option String := none
  reg : Registry := ⟨0, []⟩
  tasksByRunId : List (String × TaskData) := []
  runningSuiteByRunId : List (String × Nat) := []

/-- Per-adapter constants read by the converter: the workspace folder name,
the controller id, whether `adapter.debug` exists, and the stack-trace text
appended to `_error` (environment data). -/
structure AdapterConfig where
  workspaceFolderName : Option String := none
  controllerId : String := ""
  hasDebug : Bool := false
  stackText : String := ""

/-! ## Forest utilities

Host `TestItem` objects hold mutable `children` collections and parent
back-references; on the value trees of the embedding, a lookup resolves an
allocation id into the forest, and the parent pointer of an item is the
next-to-last element of the root path to it. -/

mutual

/-- Depth-first search of a forest for the item allocated as `oid`. -/
def findItemF : List VTestItem → Nat → Option VTestItem
  | [], _ => none
  | v :: vs, oid =>
    match findItemI v oid with
    | some r => some r
    | none => findItemF vs oid
termination_by l _ => sizeOf l

/-- Depth-first search of one item's subtree. -/
def findItemI : VTestItem → Nat → Option VTestItem
  | .mk f cs, oid => if f.oid = oid then some (.mk f cs) else findItemF cs oid
termination_by v _ => sizeOf v

end

mutual

/-- The root path (list of allocation ids, root first, target last) of the
item allocated as `oid` inside a forest. -/
def pathToF : List VTestItem → Nat → Option (List Nat)
  | [], _ => none
  | v :: vs, oid =>
    match pathToI v oid with
    | some p => some p
    | none => pathToF vs oid
termination_by l _ => sizeOf l

/-- Root path within one item's subtree. -/
def pathToI : VTestItem → Nat → Option (List Nat)
  | .mk f cs, oid =>
    if f.oid = oid then some [f.oid]
    else (pathToF cs oid).map (f.oid :: ·)
termination_by v _ => sizeOf v

end

/-- `item.parent` realized on the value forest: the next-to-last entry of
the root path. -/
def parentOfF (items : List VTestItem) (oid : Nat) : Option Nat :=
  match pathToF items oid with
  | some path => path.dropLast.getLast?
  | none => none

/-- `TestItemCollection.add`: replaces the child with the same id in
place, else appends. -/
def collectionAdd : List VTestItem → VTestItem → List VTestItem
  | [], v => [v]
  | c :: cs, v => if c.id = v.id then v :: cs else c :: collectionAdd cs v

mutual

/-- Mutation `node(target).children.add(child)` applied to a forest; a
target absent from the forest leaves it unchanged (the host object would
be detached from the tree). -/
def addChildF : List VTestItem → Nat → VTestItem → List VTestItem
  | [], _, _ => []
  | v :: vs, target, child => addChildI v target child :: addChildF vs target child
termination_by l _ _ => sizeOf l

/-- `addChildF` on one item's subtree. -/
def addChildI : VTestItem → Nat → VTestItem → VTestItem
  | .mk f cs, target, child =>
    if f.oid = target then .mk f (collectionAdd cs child)
    else .mk f (addChildF cs target child)
termination_by v _ _ => sizeOf v

end

/-- `Set.add`. -/
def setAdd (s : List Nat) (o : Nat) : List Nat := if o ∈ s then s else s ++ [o]

/-- `text.replace(/\r?\n/g, '\r\n')`. -/
def crlfNormalizeChars : List Char → List Char
  | [] => []
  | '\r' :: '\n' :: rest => '\r' :: '\n' :: crlfNormalizeChars rest
  | '\n' :: rest => '\r' :: '\n' :: crlfNormalizeChars rest
  | c :: rest => c :: crlfNormalizeChars rest

/-- `text.replace(/\r?\n/g, '\r\n')` on a string. -/
def crlfNormalize (s : String) : String := ⟨crlfNormalizeChars s.data⟩

/-! ## The state projector: `appendState`, `ensureChainAnnounced`,
`onTestEvent`, `onTestSuiteEvent` -/

/-- `appendState(task, vscodeTest, symbol, symbolColor, textColor?)`: append
one output line `indent + symbolColor(symbol) + textColor(' label\r\n')`,
where the indent is two spaces per ancestor (the parent-pointer walk,
realized here as the root path). -/
def appendState (items : List VTestItem) (task : TestRunModel) (oid : Nat)
    (symbol : Char) (symbolColor : ColorTag) (textColor : ColorTag) : TestRunModel :=
  let indentLevel := ((pathToF items oid).getD [oid]).length - 1
  let label := ((findItemF items oid).map (fun (v : VTestItem) => v.fields.label)).getD ""
  { task with
    output := task.output ++ [.stateLine oid indentLevel symbol symbolColor textColor label] }

/-- `item.children.size` for an item resolved by allocation id (0 when the
id is not in the forest). -/
def childrenCount (items : List VTestItem) (o : Nat) : Nat :=
  ((findItemF items o).map (fun v => v.children.length)).getD 0

/-- The second loop of `ensureChainAnnounced`: for every chain item, add it
to `announcedTests` and, when it has children, announce it with `▼`. -/
def announceAll (items : List VTestItem) :
    List Nat → TestRunModel → List Nat → TestRunModel × List Nat
  | [], task, announced => (task, announced)
  | o :: os, task, announced =>
    let announced1 := setAdd announced o
    let task1 :=
      if childrenCount items o ≠ 0 then
        appendState items task o '▼' .green .plain
      else task
    announceAll items os task1 announced1

/-- `ensureChainAnnounced(task, announcedTests, leafTest)`: walk up from the
leaf while the item is not yet announced (collecting the chain root
first), then announce every chain element.  The upward parent-pointer walk
is the maximal not-yet-announced suffix of the leaf's root path. -/
def ensureChainAnnounced (items : List VTestItem) (task : TestRunModel)
    (announcedTests : List Nat) (leafOid : Nat) : TestRunModel × List Nat :=
  let path := (pathToF items leafOid).getD [leafOid]
  let chain := (path.reverse.takeWhile (fun o => decide (o ∉ announcedTests))).reverse
  announceAll items chain task announcedTests

/-! ## Legacy state events -/

/-- The states a legacy `TestEvent` can carry. -/
inductive TestEvtState where
  | running
  | passed
  | failed
  | skipped
  | errored
deriving DecidableEq, Repr

/-- The states a legacy `TestSuiteEvent` can carry. -/
inductive SuiteEvtState where
  | running
  | completed
deriving DecidableEq, Repr

/-- A legacy `TestDecoration`: inline message with optional file and a
zero-based line. -/
structure TestDecoration where
  message : String
  file : Option String := none
  line : Nat
deriving DecidableEq, Repr

/-- A legacy `TestEvent` (`type: 'test'`): the test as a bare id string or
a full `TestInfo` descriptor, the state, the correlation token, and the
optional message/decorations. -/
structure TestEvent where
  test : Sum String TestItemInfo
  state : TestEvtState
  testRunId : Option String := none
  message : Option String := none
  decorations : Option (List TestDecoration) := none

/-- A legacy `TestSuiteEvent` (`type: 'suite'`). -/
structure TestSuiteEvent where
  suite : Sum String TestItemInfo
  state : SuiteEvtState
  testRunId : Option String := none

/-- `const testId = typeof evt.test === 'string' ? evt.test : evt.test.id`. -/
def TestEvent.testId (evt : TestEvent) : String :=
  match evt.test with | .inl s => s | .inr d => d.id

/-- `const suiteId = typeof evt.suite === 'string' ? evt.suite : evt.suite.id`. -/
def TestSuiteEvent.suiteId (evt : TestSuiteEvent) : String :=
  match evt.suite with | .inl s => s | .inr d => d.id

/-- The shared `'errored' | 'failed'` switch arm of `onTestEvent`: announce
the chain, print the `✖` line, echo the message to raw output, build the
`TestMessage` list from the message and decorations, and issue
`task[evt.state](vscodeTest, messages)`. -/
def failedOrErrored (st1 : ConvState) (task : TestRunModel) (announced : List Nat)
    (oid : Nat) (uriOfTest : Option Uri) (evt : TestEvent)
    (mkCall : Nat → List TestMessage → RunCall) : TestRunModel × List Nat :=
  let (t1, ann1) := ensureChainAnnounced st1.items task announced oid
  let t2 := appendState st1.items t1 oid '✖' .red .red
  let (t3, messages) :=
    match evt.message with
    | some m =>
      let t : TestRunModel :=
        { t2 with output := t2.output ++ [OutputEntry.raw (crlfNormalize m) (some oid)] }
      if (evt.decorations.getD []).length = 0 then
        (t, [({ message := m } : TestMessage)])
      else (t, ([] : List TestMessage))
    | none => (t2, ([] : List TestMessage))
  let messages2 := messages ++ (evt.decorations.getD []).map (fun (dec : TestDecoration) =>
    let uri : Option Uri :=
      match dec.file with
      | some f => some (fileToUri f)
      | none => uriOfTest
    ({ message := dec.message, location := uri.map (fun u => (u, dec.line)) } : TestMessage))
  ({ t3 with calls := t3.calls ++ [mkCall oid messages2] }, ann1)

/-- `onTestEvent(data, evt)` of testConverter.ts. -/
def onTestEvent (data : TaskData) (evt : TestEvent) (st : ConvState) : ConvState :=
  let runId := evt.testRunId.getD ""
  let runningSuite := mapGet st.runningSuiteByRunId runId
  let testId := evt.testId
  -- `if (evt.state === 'running' && !itemsById.has(testId) &&
  --     typeof evt.test === 'object' && runningSuite)`: graft the
  -- dynamically created test under the innermost running suite
  let st1 :=
    match evt.state, mapGet st.reg.itemsById testId, evt.test, runningSuite with
    | .running, none, .inr d, some suiteOid =>
      let (newItem, reg1) := createTest d none st.reg
      { st with items := addChildF st.items suiteOid newItem, reg := reg1 }
    | _, _, _, _ => st
  match mapGet st1.reg.itemsById testId with
  | none => st1
  | some oid =>
    let task := data.task
    let announced := data.announcedTests
    let uriOfTest : Option Uri :=
      ((findItemF st1.items oid).map (fun (v : VTestItem) => v.fields.uri)).getD none
    let (task1, announced1) :=
      match evt.state with
      | .skipped =>
        let t := appendState st1.items task oid '○' .yellow .dim
        ({ t with calls := t.calls ++ [RunCall.skipped oid] }, announced)
      | .running =>
        ({ task with calls := task.calls ++ [RunCall.started oid] }, announced)
      | .passed =>
        let (t1, ann1) := ensureChainAnnounced st1.items task announced oid
        let t2 := appendState st1.items t1 oid '✔' .green .plain
        ({ t2 with calls := t2.calls ++ [RunCall.passed oid] }, ann1)
      | .failed => failedOrErrored st1 task announced oid uriOfTest evt RunCall.failed
      | .errored => failedOrErrored st1 task announced oid uriOfTest evt RunCall.errored
    -- `if (evt.message && ((evt.state !== 'errored' && evt.state !== 'failed')
    --     || !vscodeTest.uri))`
    let task2 :=
      match evt.message with
      | some m =>
        if (evt.state ≠ .errored ∧ evt.state ≠ .failed) ∨ uriOfTest = none then
          { task1 with output := task1.output ++ [OutputEntry.raw (crlfNormalize m) none] }
        else task1
      | none => task1
    { st1 with
      tasksByRunId := mapSet st1.tasksByRunId runId ⟨task2, announced1⟩ }

/-- `onTestSuiteEvent(evt)` of testConverter.ts. -/
def onTestSuiteEvent (evt : TestSuiteEvent) (st : ConvState) : ConvState :=
  let runId := evt.testRunId.getD ""
  let runningSuite := mapGet st.runningSuiteByRunId runId
  let suiteId := evt.suiteId
  match evt.state with
  | .running =>
    let st1 :=
      match mapGet st.reg.itemsById suiteId, evt.suite, runningSuite with
      | none, .inr d, some suiteOid =>
        let (newItem, reg1) := createTest d none st.reg
        { st with items := addChildF st.items suiteOid newItem, reg := reg1 }
      | _, _, _ => st
    match mapGet st1.reg.itemsById suiteId with
    | some oid => { st1 with runningSuiteByRunId := mapSet st1.runningSuiteByRunId runId oid }
    | none => st1
  | .completed =>
    match runningSuite with
    | some oid =>
      if ((findItemF st.items oid).map (fun v => v.fields.id)).getD "" = suiteId then
        match parentOfF st.items oid with
        | some p => { st with runningSuiteByRunId := mapSet st.runningSuiteByRunId runId p }
        | none => { st with runningSuiteByRunId := mapDelete st.runningSuiteByRunId runId }
      else st
    | none => st

/-- A legacy `testStates` event as seen by the handler registered in the
constructor. -/
inductive TestStateEvent where
  | started (testRunId : Option String)
  | test (evt : TestEvent)
  | suite (evt : TestSuiteEvent)
  | finished (testRunId : Option String)

/-- The correlation token of a state event. -/
def TestStateEvent.testRunId : TestStateEvent → Option String
  | .started r => r
  | .test e => e.testRunId
  | .suite e => e.testRunId
  | .finished r => r

/-- The `adapter.testStates(evt => ...)` handler of the constructor: look
up the task registered under `evt.testRunId ?? ''` and drop the event if
there is none; dispatch `test` / `suite` events; on `finished`, remove the
task from the map (and `task.end()` closes the host run object). -/
def handleTestStates (evt : TestStateEvent) (st : ConvState) : ConvState :=
  match mapGet st.tasksByRunId (evt.testRunId.getD "") with
  | none => st
  | some data =>
    match evt with
    | .test e => onTestEvent data e st
    | .suite e => onTestSuiteEvent e st
    | .finished r => { st with tasksByRunId := mapDelete st.tasksByRunId (r.getD "") }
    | .started _ => st

/-! ## Discovery events: `syncTopLevel` and the `adapter.tests` handler -/

/-- A legacy `TestLoadFinishedEvent`: optional root suite descriptor,
optional error message. -/
structure TestLoadFinishedEvent where
  suite : Option TestItemInfo := none
  errorMessage : Option String := none

/-- A legacy discovery event: `started` or `finished`. -/
inductive TestLoadEvent where
  | started
  | finished (evt : TestLoadFinishedEvent)

/-- `syncTopLevel(evt)`: with a suite, set the controller label and sync the
top-level collection from the suite's children; with an error message,
store `_error` (message, blank lines, stack text) and replace the whole
collection with the single synthetic error item (plain `createTestItem`:
fresh allocation, no metadata, no `itemsById` entry); with neither,
nothing besides the external `setContext` command. -/
def syncTopLevel (cfg : AdapterConfig) (evt : TestLoadFinishedEvent) (st : ConvState) :
    ConvState :=
  match evt.suite with
  | some s =>
    let label :=
      match cfg.workspaceFolderName with
      | some name => name ++ " - " ++ s.info.label
      | none => s.info.label
    let (items, reg) := syncItemChildrenList s.childList none st.reg
    { st with controllerLabel := label, items := items, reg := reg }
  | none =>
    match evt.errorMessage with
    | some msg =>
      let oid := st.reg.nextOid
      let test : VTestItem :=
        .mk { oid, id := "error", label := "Test discovery failed",
              error := some (.markdownViewDetails cfg.controllerId) } []
      { st with
        errorText := some (msg ++ "\n\n\n" ++ cfg.stackText),
        items := [test],
        reg := { st.reg with nextOid := oid + 1 } }
    | none => st

/-- The `adapter.tests(evt => ...)` handler of the constructor: a
`finished` event resolves the discovery progress, clears `itemsById` and
runs `syncTopLevel`; a `started` event only opens the progress UI. -/
def handleTests (cfg : AdapterConfig) : TestLoadEvent → ConvState → ConvState
  | .started, st => st
  | .finished evt, st =>
    syncTopLevel cfg evt { st with reg := { st.reg with itemsById := [] } }

/-! ## The run correlator: `TestConverter.run` and its `started` listener -/

/-- Which adapter method a run request invoked. -/
inductive AdapterCall where
  | run (ids : List String)
  | debug (ids : List String)
  | noCall
deriving DecidableEq, Repr

/-- `gatherChildren(col)`: `col.forEach(child => children.push(child))`. -/
def gatherChildren (col : List VTestItem) : List VTestItem := col

/-- The inner `for (const test of queue.pop()!)` loop of the enqueue walk:
enqueue each non-suite item of the batch and push its children onto the
stack (JavaScript `push`/`pop` act on the array end; the stack is held
head-first here). -/
def forBatch : TestRunModel → List VTestItem → List (List VTestItem) →
    TestRunModel × List (List VTestItem)
  | run, [], stack => (run, stack)
  | run, test :: rest, stack =>
    let run1 :=
      if test.isSuite then run
      else { run with calls := run.calls ++ [RunCall.enqueued test.oid] }
    forBatch run1 rest (gatherChildren test.children :: stack)

theorem sizeOf_VTestItem_children_add_two_le (v : VTestItem) :
    sizeOf v.children + 2 ≤ sizeOf v := by
  cases v with
  | mk f cs =>
    cases f
    simp only [VTestItem.children, VTestItem.mk.sizeOf_spec, VFields.mk.sizeOf_spec]
    omega

theorem sizeOf_forBatch_snd (run : TestRunModel) (batch : List VTestItem)
    (stack : List (List VTestItem)) :
    sizeOf (forBatch run batch stack).2 + 1 ≤ sizeOf batch + sizeOf stack := by
  induction batch generalizing run stack with
  | nil =>
    rw [forBatch]
    simp only [List.nil.sizeOf_spec]
    omega
  | cons t rest ih =>
    rw [forBatch]
    have h1 := ih (if t.isSuite then run
      else { run with calls := run.calls ++ [RunCall.enqueued t.oid] })
      (gatherChildren t.children :: stack)
    have h2 := sizeOf_VTestItem_children_add_two_le t
    simp only [gatherChildren, List.cons.sizeOf_spec] at h1 ⊢
    omega

/-- The `while (queue.length)` loop of the `started` listener in
`TestConverter.run`: pop a batch, process it with `forBatch`, repeat. -/
def enqueueWalk (run : TestRunModel) (queue : List (List VTestItem)) : TestRunModel :=
  match queue with
  | [] => run
  | batch :: stack =>
    let p := forBatch run batch stack
    enqueueWalk p.1 p.2
termination_by sizeOf queue
decreasing_by
  have := sizeOf_forBatch_snd run batch stack
  simp only [List.cons.sizeOf_spec]
  omega

/-- The visible outcome of calling `TestConverter.run(run, testsToRun,
debug, token)` up to (and including) the adapter invocation: the resolved
request set, the adapter call made, and whether the one-shot `started`
listener is still alive (it is disposed without any call when debug is
requested but `adapter.debug` is absent). -/
structure RunRequestOutcome where
  testsToRun : List VTestItem
  call : AdapterCall
  listenerAlive : Bool

/-- `TestConverter.run`: default the request set to all top-level items,
then invoke `adapter.run(ids)`, or `adapter.debug(ids)` when debugging is
requested and supported, or dispose the listener and do nothing. -/
def runMethod (st : ConvState) (testsToRun : Option (List VTestItem))
    (debug hasDebug : Bool) : RunRequestOutcome :=
  let tests :=
    match testsToRun with
    | none => gatherChildren st.items
    | some l => l
  if !debug then ⟨tests, .run (tests.map VTestItem.id), true⟩
  else if hasDebug then ⟨tests, .debug (tests.map VTestItem.id), true⟩
  else ⟨tests, .noCall, false⟩

/-- The one-shot `testStates` listener of `run` on receipt of the
`started` event carrying correlation token `testRunId`: enqueue every
non-suite item among the requested items and their descendants on the run,
then register the run under the token with an empty `announcedTests` set.
A disposed listener (debug unsupported) never fires. -/
def onRunStarted (st : ConvState) (outcome : RunRequestOutcome) (task : TestRunModel)
    (testRunId : Option String) : ConvState :=
  if outcome.listenerAlive then
    let task1 := enqueueWalk task [outcome.testsToRun]
    { st with tasksByRunId := mapSet st.tasksByRunId (testRunId.getD "") ⟨task1, []⟩ }
  else st

/-! ## Specification-side helpers -/

mutual

/-- An item together with all items of its subtree. -/
def selfAndDescendants : VTestItem → List VTestItem
  | .mk f cs => .mk f cs :: selfAndDescendantsF cs
termination_by v => sizeOf v

/-- All items of a forest, including nested ones. -/
def selfAndDescendantsF : List VTestItem → List VTestItem
  | [] => []
  | v :: vs => selfAndDescendants v ++ selfAndDescendantsF vs
termination_by l => sizeOf l

end

/-- First-occurrence de-duplication, written from the specification's words
("only the first is materialized; later duplicates are dropped"), for
comparison against the code's `unique`. -/
def dedupKeepFirst : List String → List String
  | [] => []
  | x :: xs => x :: dedupKeepFirst (xs.filter (fun y => y ≠ x))
termination_by l => l.length
decreasing_by
  have := List.length_filter_le (fun y => y ≠ x) xs
  simp only [List.length_cons]
  omega

/-- "The resulting item matches the descriptor": the fields that
`createTest` derives from a descriptor (given the `defaultUri` in effect),
stated for comparison in the claims. -/
def MatchesDesc (u : Option Uri) (v : VTestItem) (d : TestItemInfo) : Prop :=
  v.id = d.id ∧
  v.fields.label = d.info.label ∧
  v.fields.description = d.info.description ∧
  v.fields.uri = (match d.info.file with | some f => some (fileToUri f) | none => u) ∧
  v.fields.range = (match d.info.line with | some line => some (line, 0, line + 1, 0) | none => none) ∧
  v.fields.error = (if d.info.errored then d.info.message.map TestItemError.text else none) ∧
  v.isSuite = d.isSuite

/-- The output entry `appendState` produces when `ensureChainAnnounced`
announces item `o` with `▼`. -/
def announceEntry (items : List VTestItem) (o : Nat) : OutputEntry :=
  .stateLine o (((pathToF items o).getD [o]).length - 1) '▼' .green .plain
    (((findItemF items o).map (fun (v : VTestItem) => v.fields.label)).getD "")

/-- Whether an output entry is a `▼` announcement line. -/
def isAnnounceB : OutputEntry → Bool
  | .stateLine _ _ sym _ _ _ => sym = '▼'
  | .raw _ _ => false

/-- How many `▼` announcement lines for item `o` an output stream holds. -/
def annCount (output : List OutputEntry) (o : Nat) : Nat :=
  (output.filter (fun e =>
    match e with
    | .stateLine o2 _ sym _ _ _ => decide (o2 = o) && decide (sym = '▼')
    | .raw _ _ => false)).length

/-- The chain `ensureChainAnnounced` collects for a leaf: the maximal
not-yet-announced suffix of the leaf's root path (the upward
parent-pointer walk, root first). -/
def chainOf (items : List VTestItem) (announcedTests : List Nat) (leafOid : Nat) : List Nat :=
  ((((pathToF items leafOid).getD [leafOid]).reverse.takeWhile
    (fun o => decide (o ∉ announcedTests))).reverse)

/-- Well-formedness of the item forest: allocation ids are globally
distinct and below the allocation counter.  Holds for every converter
state the host can reach, since each `createTestItem` call draws a fresh
id. -/
def StateOidsOk (st : ConvState) : Prop :=
  ((selfAndDescendantsF st.items).map VTestItem.oid).Nodup ∧
  ∀ v ∈ selfAndDescendantsF st.items, v.oid < st.reg.nextOid

/-- Per-session announcement soundness: every run session's output holds
at most one announcement line per item, and an announced item is in the
session's `announcedTests` set. -/
def TasksAnnounceOk (st : ConvState) : Prop :=
  ∀ p ∈ st.tasksByRunId, ∀ o : Nat,
    annCount p.2.task.output o ≤ 1 ∧
    (1 ≤ annCount p.2.task.output o → o ∈ p.2.announcedTests)

/-- The announcement invariant of one run session: at most one `▼` line
per item, and every announced item is in the session's `announcedTests`
set. -/
def TaskAnnOk (d : TaskData) : Prop :=
  ∀ o : Nat, annCount d.task.output o ≤ 1 ∧
    (1 ≤ annCount d.task.output o → o ∈ d.announcedTests)

/-- Folding a stream of state events through the constructor's
`testStates` handler. -/
def processEvents (evts : List TestStateEvent) (st : ConvState) : ConvState :=
  evts.foldl (fun s e => handleTestStates e s) st


namespace Gen

/-! ## The previous-generation reconciler (src/testConverter.ts)

The shipped rewrite replaces children wholesale; the source tree at
`src/testConverter.ts` holds the earlier generation-stamped reconciler:
`addItem` matches a descriptor against `parent.children.get(item.id)`,
updates the existing host object in place (stamping
`data.generation = generation`) or creates and registers a fresh one, and
`syncItemChildren` prunes every child whose stamp differs from the current
generation. -/

/-- The children member of a descriptor never outweighs the descriptor. -/
theorem sizeOf_childList_lt (d : TestItemInfo) : sizeOf d.childList < sizeOf d := by
  cases d with
  | suite f cs =>
    simp only [TestItemInfo.childList, TestItemInfo.suite.sizeOf_spec]
    omega
  | test f =>
    have h : 1 ≤ sizeOf f := by cases f; simp_arith
    simp only [TestItemInfo.childList, TestItemInfo.test.sizeOf_spec, List.nil.sizeOf_spec]
    omega

/-- The converter-relevant fields of one host `vscode.TestItem` of the old
API: `oid` is the allocation stamp of `ctrl.createTestItem` (object
identity), `generation` is the `ITestMetadata.generation` stamp. -/
structure GFields where
  oid : Nat
  id : String
  label : String
  uri : Option Uri := none
  description : Option String := none
  range : Option (Nat × Nat × Nat × Nat) := none
  error : Option String := none
  debuggable : Bool := false
  generation : Nat := 0
deriving DecidableEq, Repr

/-- A host `vscode.TestItem` with its `children` collection. -/
inductive GTestItem where
  | mk (fields : GFields) (children : List GTestItem)

/-- Field record of an item. -/
def GTestItem.fields : GTestItem → GFields
  | .mk f _ => f

/-- Children collection of an item. -/
def GTestItem.children : GTestItem → List GTestItem
  | .mk _ cs => cs

def GTestItem.id (v : GTestItem) : String := v.fields.id

def GTestItem.oid (v : GTestItem) : Nat := v.fields.oid

def GTestItem.generation (v : GTestItem) : Nat := v.fields.generation

theorem GTestItem.children_sizeOf_lt (v : GTestItem) : sizeOf v.children < sizeOf v := by
  cases v with
  | mk f cs =>
    simp only [GTestItem.children, GTestItem.mk.sizeOf_spec]
    omega

/-- The allocation counter and the converter's `itemsById` map (id to
allocation stamp). -/
structure GRegistry where
  nextOid : Nat
  itemsById : List (String × Nat)
deriving DecidableEq, Repr

/-- `parent.children.get(id)`: the children collection is keyed by item id;
resolve to the first child carrying the id. -/
def childrenGet : List GTestItem → String → Option GTestItem
  | [], _ => none
  | c :: rest, i => if c.id = i then some c else childrenGet rest i

/-- In-place mutation of the child found by `children.get(id)`: replace the
first child carrying the id, keeping its position. -/
def childrenReplace : List GTestItem → String → GTestItem → List GTestItem
  | [], _, _ => []
  | c :: rest, i, n => if c.id = i then n :: rest else c :: childrenReplace rest i n

/-- The pruning loop of `syncItemChildren`: dispose every child whose
generation stamp differs and drop its id from `itemsById`. -/
def pruneGo : List GTestItem → Nat → List (String × Nat) → List GTestItem × List (String × Nat)
  | [], _, m => ([], m)
  | c :: rest, generation, m =>
    if c.generation = generation then
      let (rest2, m2) := pruneGo rest generation m
      (c :: rest2, m2)
    else
      pruneGo rest generation (mapDelete m c.id)

mutual

/-- `addItem(item, generation, parent)`: look the descriptor's id up in the
parent's children; on a hit restamp the generation and update
`description` / `range` / `debuggable` / `error` on the same object, on a
miss `createTestItem` a fresh child (inheriting `parent.uri` when the
descriptor has no `file`) and register it in `itemsById`; then sync the
item's children against `'children' in item ? item.children : []`. -/
def addItem (item : TestItemInfo) (generation : Nat) (parentUri : Option Uri)
    (hasDebug : Bool) (siblings : List GTestItem) (reg : GRegistry) :
    List GTestItem × GRegistry :=
  match childrenGet siblings item.id with
  | some c =>
    let f := c.fields
    let f2 : GFields :=
      { f with
          generation := generation,
          description := item.info.description,
          range := (match item.info.line with
            | some line => some (line, 0, line + 1, 0)
            | none => f.range),
          debuggable := hasDebug,
          error := if item.info.errored then item.info.message else f.error }
    let (children, reg1) :=
      syncItemChildren item.childList generation f.uri hasDebug c.children reg
    (childrenReplace siblings item.id (GTestItem.mk f2 children), reg1)
  | none =>
    let oid := reg.nextOid
    let uri : Option Uri :=
      match item.info.file with
      | some f => some (fileToUri f)
      | none => parentUri
    let f : GFields :=
      { oid, id := item.id, label := item.info.label, uri,
        description := item.info.description,
        range := (match item.info.line with
          | some line => some (line, 0, line + 1, 0)
          | none => none),
        debuggable := hasDebug,
        error := if item.info.errored then item.info.message else none,
        generation := generation }
    let reg1 : GRegistry := ⟨oid + 1, mapSet reg.itemsById item.id oid⟩
    let (children, reg2) :=
      syncItemChildren item.childList generation uri hasDebug [] reg1
    (siblings ++ [GTestItem.mk f children], reg2)
termination_by sizeOf item * 2
decreasing_by
  all_goals simp_wf
  all_goals (have h := sizeOf_childList_lt item; omega)

/-- The `for (const child of children) this.addItem(child, generation,
vscodeTest)` loop of `syncItemChildren`. -/
def addAll : List TestItemInfo → Nat → Option Uri → Bool → List GTestItem → GRegistry →
    List GTestItem × GRegistry
  | [], _, _, _, cur, reg => (cur, reg)
  | d :: ds, generation, parentUri, hasDebug, cur, reg =>
    let (cur1, reg1) := addItem d generation parentUri hasDebug cur reg
    addAll ds generation parentUri hasDebug cur1 reg1
termination_by l _ _ _ _ _ => sizeOf l * 2
decreasing_by
  all_goals simp_wf
  all_goals omega

/-- `syncItemChildren(vscodeTest, generation, children)`: add every
descriptor, then dispose every child whose generation stamp is stale and
drop its id from `itemsById`. -/
def syncItemChildren (children : List TestItemInfo) (generation : Nat)
    (parentUri : Option Uri) (hasDebug : Bool) (cur : List GTestItem)
    (reg : GRegistry) : List GTestItem × GRegistry :=
  let (cur1, reg1) := addAll children generation parentUri hasDebug cur reg
  let (cur2, ids2) := pruneGo cur1 generation reg1.itemsById
  (cur2, { reg1 with itemsById := ids2 })
termination_by sizeOf children * 2 + 1
decreasing_by
  all_goals simp_wf
  all_goals omega

end

/-- One discovery pass of the `adapter.tests` handler (`'finished'` with a
root suite): `this.syncItemChildren(this.root, generationCounter++,
[evt.suite])`, with the root's children and `root.uri = undefined`. -/
def loadFinished (hasDebug : Bool) (suite : TestItemInfo) (generation : Nat)
    (rootChildren : List GTestItem) (reg : GRegistry) : List GTestItem × GRegistry :=
  syncItemChildren [suite] generation none hasDebug rootChildren reg

/-- The body of `addItem` with the mutual recursion into `syncItemChildren`
abstracted into a function argument: one step of the reconciler. -/
def addItemGo (syncF : List TestItemInfo → Nat → Option Uri → Bool → List GTestItem →
      GRegistry → List GTestItem × GRegistry)
    (item : TestItemInfo) (generation : Nat) (parentUri : Option Uri)
    (hasDebug : Bool) (siblings : List GTestItem) (reg : GRegistry) :
    List GTestItem × GRegistry :=
  match childrenGet siblings item.id with
  | some c =>
    let f := c.fields
    let f2 : GFields :=
      { f with
          generation := generation,
          description := item.info.description,
          range := (match item.info.line with
            | some line => some (line, 0, line + 1, 0)
            | none => f.range),
          debuggable := hasDebug,
          error := if item.info.errored then item.info.message else f.error }
    let (children, reg1) :=
      syncF item.childList generation f.uri hasDebug c.children reg
    (childrenReplace siblings item.id (GTestItem.mk f2 children), reg1)
  | none =>
    let oid := reg.nextOid
    let uri : Option Uri :=
      match item.info.file with
      | some f => some (fileToUri f)
      | none => parentUri
    let f : GFields :=
      { oid, id := item.id, label := item.info.label, uri,
        description := item.info.description,
        range := (match item.info.line with
          | some line => some (line, 0, line + 1, 0)
          | none => none),
        debuggable := hasDebug,
        error := if item.info.errored then item.info.message else none,
        generation := generation }
    let reg1 : GRegistry := ⟨oid + 1, mapSet reg.itemsById item.id oid⟩
    let (children, reg2) :=
      syncF item.childList generation uri hasDebug [] reg1
    (siblings ++ [GTestItem.mk f children], reg2)

/-- The `addItem` loop of `syncItemChildren`, with the recursion into
`syncItemChildren` abstracted. -/
def addAllGo (syncF : List TestItemInfo → Nat → Option Uri → Bool → List GTestItem →
      GRegistry → List GTestItem × GRegistry) :
    List TestItemInfo → Nat → Option Uri → Bool → List GTestItem → GRegistry →
    List GTestItem × GRegistry
  | [], _, _, _, cur, reg => (cur, reg)
  | d :: ds, generation, parentUri, hasDebug, cur, reg =>
    let (cur1, reg1) := addItemGo syncF d generation parentUri hasDebug cur reg
    addAllGo syncF ds generation parentUri hasDebug cur1 reg1

/-- A fuel-indexed, structurally recursive presentation of
`syncItemChildren`: with enough fuel it computes the same function (see
`syncE_eq`), and being structural it evaluates on concrete descriptor
trees by plain reduction. -/
def syncE : Nat → List TestItemInfo → Nat → Option Uri → Bool → List GTestItem →
    GRegistry → List GTestItem × GRegistry
  | 0, _, _, _, _, _, reg => ([], reg)
  | fuel+1, children, generation, parentUri, hasDebug, cur, reg =>
    let (cur1, reg1) :=
      addAllGo (fun a b c d e f => syncE fuel a b c d e f) children generation
        parentUri hasDebug cur reg
    let (cur2, ids2) := pruneGo cur1 generation reg1.itemsById
    (cur2, { reg1 with itemsById := ids2 })

mutual

/-- Depth-first search of a forest for the item carrying an id. -/
def findByIdF : List GTestItem → String → Option GTestItem
  | [], _ => none
  | c :: rest, i =>
    match findByIdI c i with
    | some r => some r
    | none => findByIdF rest i
termination_by l _ => sizeOf l

/-- Depth-first search of a tree for the item carrying an id. -/
def findByIdI : GTestItem → String → Option GTestItem
  | .mk f cs, i => if f.id = i then some (.mk f cs) else findByIdF cs i
termination_by v _ => sizeOf v

end

mutual

/-- All ids of a descriptor tree, node before descendants. -/
def descIds (d : TestItemInfo) : List String :=
  TestItemInfo.id d :: descIdsF d.childList
termination_by sizeOf d * 2
decreasing_by
  all_goals simp_wf
  all_goals (have h := sizeOf_childList_lt d; omega)

/-- All ids of a descriptor forest. -/
def descIdsF : List TestItemInfo → List String
  | [] => []
  | d :: ds => descIds d ++ descIdsF ds
termination_by l => sizeOf l * 2 + 1
decreasing_by
  all_goals simp_wf
  all_goals omega

end

mutual

/-- Per-level id uniqueness of a descriptor forest: the ids of each
children array are pairwise distinct, recursively. -/
def NodupIdsF (ds : List TestItemInfo) : Prop :=
  (ds.map TestItemInfo.id).Nodup ∧ NodupIdsAll ds
termination_by sizeOf ds * 2 + 1
decreasing_by
  all_goals simp_wf
  all_goals omega

/-- Every member's children array satisfies `NodupIdsF`. -/
def NodupIdsAll : List TestItemInfo → Prop
  | [] => True
  | d :: ds => NodupIdsF d.childList ∧ NodupIdsAll ds
termination_by l => sizeOf l * 2
decreasing_by
  all_goals simp_wf
  all_goals (try omega)
  all_goals (have h := sizeOf_childList_lt d; omega)

end

mutual

/-- The specification's shape relation between a descriptor and a host
item built from it: ids agree, the node carries the given generation
stamp, and the children mirror the descriptor's children pointwise. -/
def MirrorI (gen : Nat) (d : TestItemInfo) (v : GTestItem) : Prop :=
  GTestItem.id v = TestItemInfo.id d ∧ GTestItem.generation v = gen ∧
    MirrorF gen d.childList v.children
termination_by (sizeOf d + sizeOf v) * 2 + 1
decreasing_by
  all_goals simp_wf
  all_goals (have h1 := sizeOf_childList_lt d
             have h2 := GTestItem.children_sizeOf_lt v
             omega)

/-- Pointwise mirror of a descriptor forest. -/
def MirrorF (gen : Nat) : List TestItemInfo → List GTestItem → Prop
  | [], [] => True
  | [], _ :: _ => False
  | _ :: _, [] => False
  | d :: ds, v :: vs => MirrorI gen d v ∧ MirrorF gen ds vs
termination_by ds vs => (sizeOf ds + sizeOf vs) * 2
decreasing_by
  all_goals simp_wf
  all_goals omega

end

mutual

/-- "Pass 2's tree is obtained from pass 1's by deleting whole subtrees":
the two descriptors share an id and the children arrays are related
element by element, allowing deletions — no reparenting and no
reordering. -/
def DescSub (d e : TestItemInfo) : Prop :=
  TestItemInfo.id d = TestItemInfo.id e ∧ ForestSub d.childList e.childList
termination_by (sizeOf d + sizeOf e) * 2 + 1
decreasing_by
  all_goals simp_wf
  all_goals (have h1 := sizeOf_childList_lt d
             have h2 := sizeOf_childList_lt e
             omega)

/-- Sub-forest: keep each element (refined by `DescSub`) or drop it,
preserving order. -/
def ForestSub : List TestItemInfo → List TestItemInfo → Prop
  | [], [] => True
  | [], _ :: es => ForestSub [] es
  | _ :: _, [] => False
  | d :: ds, e :: es => (DescSub d e ∧ ForestSub ds es) ∨ ForestSub (d :: ds) es
termination_by l2 l1 => (sizeOf l2 + sizeOf l1) * 2
decreasing_by
  all_goals simp_wf
  all_goals omega

end

mutual

/-- The amended reconciliation contract for one matched node: the result
is the same identity object (`oid`) as before the pass, restamped with the
new generation, and its children are reconciled by the same contract. -/
def SyncedI (gen2 : Nat) (d : TestItemInfo) (old new : GTestItem) : Prop :=
  GTestItem.oid new = GTestItem.oid old ∧ GTestItem.id new = GTestItem.id old ∧
    GTestItem.generation new = gen2 ∧
    SyncedF gen2 d.childList old.children new.children
termination_by (sizeOf d + sizeOf old) * 2 + 1
decreasing_by
  all_goals simp_wf
  all_goals (have h1 := sizeOf_childList_lt d
             have h2 := GTestItem.children_sizeOf_lt old
             omega)

/-- The amended reconciliation contract for one children collection: the
new collection consists, in order, of exactly the old children matched by
a pass-2 descriptor (each preserved by `SyncedI`); every other old child
is removed. -/
def SyncedF (gen2 : Nat) : List TestItemInfo → List GTestItem → List GTestItem → Prop
  | [], _, new => new = []
  | _ :: _, [], _ => False
  | d :: ds, o :: os, new =>
    (TestItemInfo.id d = GTestItem.id o ∧
      ∃ n ns, new = n :: ns ∧ SyncedI gen2 d o n ∧ SyncedF gen2 ds os ns) ∨
    SyncedF gen2 (d :: ds) os new
termination_by ds os _ => (sizeOf ds + sizeOf os) * 2
decreasing_by
  all_goals simp_wf
  all_goals omega

end

end Gen

end Conv


/-! # Theorems

The claims of the specification, settled against the embedding above. -/

theorem scanClass_eq_true_iff (l : List Char) (seen : Bool) :
    scanClass l seen = true ↔
      ∃ k, ((l.take k).all isSchemeChar = true) ∧ l.get? k = some ':' ∧
        (seen = true ∨ 1 ≤ k) := by
  induction l generalizing seen with
  | nil => simp [scanClass]
  | cons c rest ih =>
    by_cases hc : isSchemeChar c = true
    · rw [scanClass, if_pos hc, ih]
      constructor
      · rintro ⟨k, hall, hget, _⟩
        exact ⟨k + 1, by simpa [List.all_cons, hc] using hall, by simpa using hget,
          Or.inr (Nat.succ_le_succ (Nat.zero_le _))⟩
      · rintro ⟨k, hall, hget, _⟩
        match k with
        | 0 =>
          exfalso
          have hc' : c = ':' := by simpa using hget
          rw [hc'] at hc
          exact absurd hc (by decide)
        | k + 1 =>
          refine ⟨k, ?_, by simpa using hget, Or.inl rfl⟩
          simpa [List.all_cons, hc] using hall
    · rw [scanClass, if_neg hc]
      constructor
      · intro h
        rw [Bool.and_eq_true] at h
        have hc' : c = ':' := by simpa using h.1
        exact ⟨0, by simp, by simp [hc'], Or.inl h.2⟩
      · rintro ⟨k, hall, hget, hk⟩
        match k with
        | 0 =>
          have hc' : c = ':' := by simpa using hget
          subst hc'
          rcases hk with h | h
          · simp [h]
          · omega
        | k + 1 =>
          exfalso
          apply hc
          have := List.all_eq_true.mp hall c (by simp)
          exact this

/-- C9: the file-string-to-URI conversion parses the string as a full URI
exactly when the string begins with a scheme of at least two characters —
a lowercase letter followed by one or more characters of the class
`[a-z0-9+-.]` and then `':'`; any other string, in particular the Windows
drive-letter path `c:\tests\a.js` whose prefix before `':'` is a single
character, is converted as a filesystem path. -/
theorem fileToUri_parse_iff_scheme (s : String) :
    (fileToUri s = Uri.parse s ↔ BeginsWithScheme s) ∧
      fileToUri "c:\\tests\\a.js" = Uri.file "c:\\tests\\a.js" := by
  refine ⟨?_, by decide⟩
  constructor
  · intro hparse
    have h : schemeMatcherTest s = true := by
      by_contra hne
      unfold fileToUri at hparse
      rw [if_neg hne] at hparse
      exact absurd hparse (by simp)
    unfold schemeMatcherTest at h
    rcases hdata : s.data with _ | ⟨c, rest⟩ <;> rw [hdata] at h
    · exact absurd h (by simp)
    · rw [Bool.and_eq_true] at h
      obtain ⟨k, hall, hget, hk⟩ := (scanClass_eq_true_iff rest false).mp h.2
      rcases hk with h' | h'
      · exact absurd h' (by simp)
      · exact ⟨c, rest, k, hdata, h.1, h', hall, hget⟩
  · rintro ⟨c, rest, k, hs, hlow, hk, hall, hget⟩
    have htest : schemeMatcherTest s = true := by
      unfold schemeMatcherTest
      rw [hs, Bool.and_eq_true]
      exact ⟨hlow, (scanClass_eq_true_iff rest false).mpr ⟨k, hall, hget, Or.inr hk⟩⟩
    unfold fileToUri
    rw [if_pos htest]

namespace Conv

/-- C3: a discovery `finished` event that carries neither a suite nor an
error message leaves the converter's existing test-item tree (the
controller's item forest) completely unmodified — the whole state is
unchanged except for the cleared `itemsById` map. -/
theorem finished_without_suite_or_error_keeps_tree (cfg : AdapterConfig)
    (evt : TestLoadFinishedEvent) (st : ConvState)
    (hsuite : evt.suite = none) (herr : evt.errorMessage = none) :
    handleTests cfg (.finished evt) st
      = { st with reg := { st.reg with itemsById := [] } } := by
  simp [handleTests, syncTopLevel, hsuite, herr]

/-- Witness for C3 at a concrete input: a converter holding one item
receives an empty `finished` event; the tree is untouched. -/
theorem finished_without_suite_or_error_keeps_tree_witness :
    handleTests {} (.finished {})
        { items := [VTestItem.mk { oid := 0, id := "a", label := "A" } []],
          reg := ⟨1, [("a", 0)]⟩ }
      = { items := [VTestItem.mk { oid := 0, id := "a", label := "A" } []],
          reg := ⟨1, []⟩ } :=
  finished_without_suite_or_error_keeps_tree {} {} _ rfl rfl

/-- C4: a discovery `finished` event carrying an error message instead of
a suite replaces the entire item forest with exactly one synthetic error
node (fresh allocation, id `error`, label `Test discovery failed`, the
trusted "View details" link as its error field), retains the error text in
`_error`, and future discovery passes still work: a later `finished` event
with a suite resynchronizes the forest exactly as usual. -/
theorem finished_with_error_replaces_tree (cfg : AdapterConfig)
    (evt : TestLoadFinishedEvent) (st : ConvState) (msg : String)
    (hsuite : evt.suite = none) (herr : evt.errorMessage = some msg) :
    (handleTests cfg (.finished evt) st).items
      = [VTestItem.mk
          { oid := st.reg.nextOid, id := "error",
            label := "Test discovery failed",
            error := some (.markdownViewDetails cfg.controllerId) } []] ∧
    (handleTests cfg (.finished evt) st).errorText
      = some (msg ++ "\n\n\n" ++ cfg.stackText) ∧
    (∀ (evt2 : TestLoadFinishedEvent) (suite2 : TestItemInfo), evt2.suite = some suite2 →
      (handleTests cfg (.finished evt2) (handleTests cfg (.finished evt) st)).items
        = (syncItemChildrenList suite2.childList none ⟨st.reg.nextOid + 1, []⟩).1) := by
  refine ⟨?_, ?_, ?_⟩
  · simp [handleTests, syncTopLevel, hsuite, herr]
  · simp [handleTests, syncTopLevel, hsuite, herr]
  · intro evt2 suite2 hs2
    simp [handleTests, syncTopLevel, hsuite, herr, hs2]

/-- Witness for C4 at a concrete input: an error pass on a converter that
held one item leaves one error node, the stored text, and a later
successful pass resynchronizes. -/
theorem finished_with_error_replaces_tree_witness :
    (handleTests { controllerId := "c1", stackText := "st" }
        (.finished { errorMessage := some "boom" })
        { items := [VTestItem.mk { oid := 0, id := "a", label := "A" } []],
          reg := ⟨1, [("a", 0)]⟩ }).items
      = [VTestItem.mk
          { oid := 1, id := "error", label := "Test discovery failed",
            error := some (.markdownViewDetails "c1") } []] ∧
    (handleTests { controllerId := "c1", stackText := "st" }
        (.finished { errorMessage := some "boom" })
        { items := [VTestItem.mk { oid := 0, id := "a", label := "A" } []],
          reg := ⟨1, [("a", 0)]⟩ }).errorText = some ("boom" ++ "\n\n\n" ++ "st") ∧
    (∀ (evt2 : TestLoadFinishedEvent) (suite2 : TestItemInfo), evt2.suite = some suite2 →
      (handleTests { controllerId := "c1", stackText := "st" } (.finished evt2)
          (handleTests { controllerId := "c1", stackText := "st" }
            (.finished { errorMessage := some "boom" })
            { items := [VTestItem.mk { oid := 0, id := "a", label := "A" } []],
              reg := ⟨1, [("a", 0)]⟩ })).items
        = (syncItemChildrenList suite2.childList none ⟨2, []⟩).1) :=
  finished_with_error_replaces_tree { controllerId := "c1", stackText := "st" }
    { errorMessage := some "boom" } _ "boom" rfl rfl

/-- C7: when a debug run is requested and the adapter has no `debug`
method, neither `adapter.run` nor `adapter.debug` is invoked and no run
session is ever registered (the `started` listener was disposed); in every
other case exactly one of `run`/`debug` is invoked with the ids of the
requested items. -/
theorem debug_unsupported_is_silent_noop (st : ConvState)
    (testsToRun : Option (List VTestItem)) (debug hasDebug : Bool) :
    (debug = true → hasDebug = false →
      (runMethod st testsToRun debug hasDebug).call = .noCall ∧
      ∀ (task : TestRunModel) (rid : Option String),
        onRunStarted st (runMethod st testsToRun debug hasDebug) task rid = st) ∧
    (debug = false →
      (runMethod st testsToRun debug hasDebug).call
        = .run ((runMethod st testsToRun debug hasDebug).testsToRun.map VTestItem.id)) ∧
    (debug = true → hasDebug = true →
      (runMethod st testsToRun debug hasDebug).call
        = .debug ((runMethod st testsToRun debug hasDebug).testsToRun.map VTestItem.id)) := by
  refine ⟨?_, ?_, ?_⟩
  · rintro rfl rfl
    refine ⟨by simp [runMethod], ?_⟩
    intro task rid
    simp [onRunStarted, runMethod]
  · rintro rfl
    simp [runMethod]
  · rintro rfl rfl
    simp [runMethod]

/-- Witness for C7 at a concrete input: a debug request against an adapter
without `debug` makes no call and registers nothing. -/
theorem debug_unsupported_is_silent_noop_witness :
    (runMethod {} none true false).call = .noCall ∧
    ∀ (task : TestRunModel) (rid : Option String),
      onRunStarted {} (runMethod {} none true false) task rid = {} :=
  (debug_unsupported_is_silent_noop {} none true false).1 rfl rfl

/-- C10: every discovery `finished` event clears `itemsById` before any
resynchronization — the outcome never depends on the previous map — and
after a pass carrying neither suite nor error the map is empty while the
tree is intact, so a later test event naming a previously known node by
bare id is silently dropped (the converter state does not change). -/
theorem finished_clears_itemsById (cfg : AdapterConfig) :
    (∀ (evt : TestLoadFinishedEvent) (st : ConvState),
      handleTests cfg (.finished evt) st
        = handleTests cfg (.finished evt) { st with reg := { st.reg with itemsById := [] } }) ∧
    (∀ (evt : TestLoadFinishedEvent) (st : ConvState),
      evt.suite = none → evt.errorMessage = none →
      (handleTests cfg (.finished evt) st).reg.itemsById = [] ∧
      (handleTests cfg (.finished evt) st).items = st.items ∧
      (∀ (e : TestEvent) (tid : String), e.test = Sum.inl tid →
        handleTestStates (.test e) (handleTests cfg (.finished evt) st)
          = handleTests cfg (.finished evt) st)) := by
  constructor
  · intro evt st
    simp [handleTests]
  · intro evt st hsuite herr
    rw [finished_without_suite_or_error_keeps_tree cfg evt st hsuite herr]
    refine ⟨rfl, rfl, ?_⟩
    intro e tid htid
    simp only [handleTestStates]
    cases hlook : mapGet ({ st with reg := { st.reg with itemsById := [] }}
        : ConvState).tasksByRunId ((TestStateEvent.test e).testRunId.getD "") with
    | none => rfl
    | some data =>
      simp only
      unfold onTestEvent
      simp [htid, mapGet]

theorem uniqueGo_map_proj {T : Type} (p : T → String) (l : List T) (seen : List String) :
    (uniqueGo p seen l).map p
      = dedupKeepFirst ((l.map p).filter (fun r => decide (r ∉ seen))) := by
  induction l generalizing seen with
  | nil => simp [uniqueGo, dedupKeepFirst]
  | cons t ts ih =>
    by_cases hr : p t ∈ seen
    · have h1 : decide (p t ∉ seen) = false := by simpa using hr
      rw [List.map_cons, List.filter_cons, h1]
      simp only [Bool.false_eq_true, if_false]
      simp only [uniqueGo]
      rw [if_pos hr]
      exact ih seen
    · have h1 : decide (p t ∉ seen) = true := by simpa using hr
      rw [List.map_cons, List.filter_cons, h1]
      simp only [if_true]
      simp only [uniqueGo]
      rw [if_neg hr, List.map_cons]
      simp only [dedupKeepFirst]
      rw [ih (p t :: seen)]
      have hff : List.filter (fun r => decide (r ∉ p t :: seen)) (List.map p ts)
          = List.filter (fun y => decide (y ≠ p t))
              (List.filter (fun r => decide (r ∉ seen)) (List.map p ts)) := by
        rw [List.filter_filter]
        apply List.filter_congr
        intro r _
        by_cases h1 : r = p t <;> by_cases h2 : r ∈ seen <;> simp [h1, h2]
      rw [hff]

theorem unique_map_proj {T : Type} (p : T → String) (l : List T) :
    (unique l p).map p = dedupKeepFirst (l.map p) := by
  rw [unique, uniqueGo_map_proj]
  congr 1
  apply List.filter_eq_self.mpr
  intro r _
  simp

theorem uniqueGo_first {T : Type} (p : T → String) (l : List T) (seen : List String) :
    ∀ t ∈ uniqueGo p seen l,
      p t ∉ seen ∧ (l.filter (fun x => decide (p x = p t))).head? = some t := by
  induction l generalizing seen with
  | nil => simp [uniqueGo]
  | cons c ts ih =>
    intro t ht
    simp only [uniqueGo] at ht
    by_cases hc : p c ∈ seen
    · rw [if_pos hc] at ht
      obtain ⟨hns, hh⟩ := ih seen t ht
      refine ⟨hns, ?_⟩
      rw [List.filter_cons]
      have : decide (p c = p t) = false := by
        simp only [decide_eq_false_iff_not]
        intro he
        exact hns (he ▸ hc)
      rw [this]
      exact hh
    · rw [if_neg hc] at ht
      rcases List.mem_cons.mp ht with rfl | ht'
      · refine ⟨hc, ?_⟩
        rw [List.filter_cons]
        simp
      · obtain ⟨hns, hh⟩ := ih (p c :: seen) t ht'
        have hne : p t ≠ p c := fun he => hns (by simp [he])
        refine ⟨fun hmem => hns (by simp [hmem]), ?_⟩
        rw [List.filter_cons]
        have : decide (p c = p t) = false := by
          simp only [decide_eq_false_iff_not]
          exact fun he => hne he.symm
        rw [this]
        exact hh

theorem createTest_fields (d : TestItemInfo) (u : Option Uri) (reg : Registry) :
    ((createTest d u reg).1).fields
      = { oid := reg.nextOid, id := d.id, label := d.info.label,
          uri := (match d.info.file with | some f => some (fileToUri f) | none => u),
          description := d.info.description,
          range := (match d.info.line with
            | some line => some (line, 0, line + 1, 0)
            | none => none),
          error := (if d.info.errored then d.info.message.map TestItemError.text else none),
          isSuite := d.isSuite } := by
  cases d <;>
    simp [createTest, TestItemInfo.id, TestItemInfo.info, TestItemInfo.isSuite,
      VTestItem.fields]

theorem createTest_matches (d : TestItemInfo) (u : Option Uri) (reg : Registry) :
    MatchesDesc u ((createTest d u reg).1) d := by
  have h := createTest_fields d u reg
  refine ⟨?_, ?_, ?_, ?_, ?_, ?_, ?_⟩ <;>
    simp [VTestItem.id, VTestItem.isSuite, h]

theorem createAll_ids (l : List TestItemInfo) (u : Option Uri) (reg : Registry) :
    ((createAll l u reg).1).map VTestItem.id = l.map TestItemInfo.id := by
  induction l generalizing reg with
  | nil => simp [createAll]
  | cons t ts ih =>
    rw [createAll]
    simp only [List.map_cons, List.cons.injEq]
    refine ⟨?_, ih _⟩
    have h := createTest_fields t u reg
    simp [VTestItem.id, h, TestItemInfo.id]

theorem createAll_mem (l : List TestItemInfo) (u : Option Uri) (reg : Registry) :
    ∀ v ∈ (createAll l u reg).1, ∃ d ∈ l, MatchesDesc u v d := by
  induction l generalizing reg with
  | nil => simp [createAll]
  | cons t ts ih =>
    intro v hv
    rw [createAll] at hv
    simp only [List.mem_cons] at hv
    rcases hv with rfl | hv'
    · exact ⟨t, List.mem_cons_self _ _, createTest_matches t u reg⟩
    · obtain ⟨d, hd, hm⟩ := ih _ v hv'
      exact ⟨d, List.mem_cons_of_mem _ hd, hm⟩

/-- C2: when one descriptor list contains duplicate ids, only the first
occurrence of each id is materialized: the synced collection's ids are the
first-occurrence de-duplication of the descriptor ids, and every item in
the collection matches the *first* descriptor carrying its id. -/
theorem syncItemChildren_dedupes_keeping_first (children : List TestItemInfo)
    (u : Option Uri) (reg : Registry) :
    ((syncItemChildrenList children u reg).1.map VTestItem.id)
      = dedupKeepFirst (children.map TestItemInfo.id) ∧
    ∀ v ∈ (syncItemChildrenList children u reg).1,
      ∃ d, (children.filter (fun x => decide (x.id = v.id))).head? = some d ∧
        MatchesDesc u v d := by
  constructor
  · rw [syncItemChildrenList, createAll_ids, ← unique_map_proj]
  · intro v hv
    rw [syncItemChildrenList] at hv
    obtain ⟨d, hd, hm⟩ := createAll_mem _ u reg v hv
    obtain ⟨-, hh⟩ := uniqueGo_first TestItemInfo.id children [] d hd
    refine ⟨d, ?_, hm⟩
    have hid : v.id = d.id := hm.1
    rw [hid]
    have : (fun x => decide (TestItemInfo.id x = TestItemInfo.id d))
        = (fun x => decide (x.id = d.id)) := rfl
    rw [← this]
    exact hh

theorem selfAndDescendantsF_append (l1 l2 : List VTestItem) :
    selfAndDescendantsF (l1 ++ l2) = selfAndDescendantsF l1 ++ selfAndDescendantsF l2 := by
  induction l1 with
  | nil => simp [selfAndDescendantsF]
  | cons v vs ih =>
    simp only [List.cons_append, selfAndDescendantsF, ih, List.append_assoc]

theorem mem_selfAndDescendantsF_join (L : List (List VTestItem)) (v : VTestItem) :
    v ∈ selfAndDescendantsF L.flatten ↔ ∃ l ∈ L, v ∈ selfAndDescendantsF l := by
  induction L with
  | nil => simp [selfAndDescendantsF]
  | cons l ls ih =>
    simp only [List.flatten_cons, selfAndDescendantsF_append, List.mem_append, ih,
      List.mem_cons]
    constructor
    · rintro (h | ⟨l', hl', hv⟩)
      · exact ⟨l, Or.inl rfl, h⟩
      · exact ⟨l', Or.inr hl', hv⟩
    · rintro ⟨l', rfl | hl', hv⟩
      · exact Or.inl hv
      · exact Or.inr ⟨l', hl', hv⟩

theorem forBatch_spec (batch : List VTestItem) (run : TestRunModel)
    (stack : List (List VTestItem)) :
    (forBatch run batch stack).1.calls
      = run.calls ++ (batch.filter (fun v => !v.isSuite)).map (fun v => RunCall.enqueued v.oid) ∧
    (forBatch run batch stack).1.output = run.output ∧
    (forBatch run batch stack).2 = (batch.map VTestItem.children).reverse ++ stack := by
  induction batch generalizing run stack with
  | nil => simp [forBatch]
  | cons t rest ih =>
    rw [forBatch]
    obtain ⟨h1, h2, h3⟩ := ih (if t.isSuite then run
      else { run with calls := run.calls ++ [RunCall.enqueued t.oid] }) (gatherChildren t.children :: stack)
    refine ⟨?_, ?_, ?_⟩
    · rw [h1, List.filter_cons]
      by_cases hs : t.isSuite
      · simp [hs]
      · simp only [Bool.not_eq_true] at hs
        simp [hs]
    · rw [h2]
      by_cases hs : t.isSuite <;> simp [hs]
    · rw [h3, gatherChildren]
      simp [List.append_assoc]

theorem selfAndDescendants_eq (t : VTestItem) :
    selfAndDescendants t = t :: selfAndDescendantsF t.children := by
  cases t with
  | mk f cs => rw [selfAndDescendants, VTestItem.children]

theorem mem_selfAndDescendantsF (l : List VTestItem) (v : VTestItem) :
    v ∈ selfAndDescendantsF l
      ↔ ∃ t ∈ l, v = t ∨ v ∈ selfAndDescendantsF t.children := by
  induction l with
  | nil => simp [selfAndDescendantsF]
  | cons t ts ih =>
    rw [selfAndDescendantsF, selfAndDescendants_eq]
    simp only [List.mem_append, List.mem_cons, ih]
    constructor
    · intro h
      rcases h with (heq | hv) | ⟨t', ht', hv⟩
      · exact ⟨t, Or.inl rfl, Or.inl heq⟩
      · exact ⟨t, Or.inl rfl, Or.inr hv⟩
      · exact ⟨t', Or.inr ht', hv⟩
    · rintro ⟨t', ht', hv⟩
      rcases ht' with heq | ht'
      · subst heq
        rcases hv with heq2 | hv2
        · exact Or.inl (Or.inl heq2)
        · exact Or.inl (Or.inr hv2)
      · exact Or.inr ⟨t', ht', hv⟩

theorem enqueueWalk_spec (queue : List (List VTestItem)) (run : TestRunModel) :
    (enqueueWalk run queue).output = run.output ∧
    ∀ o, RunCall.enqueued o ∈ (enqueueWalk run queue).calls ↔
      RunCall.enqueued o ∈ run.calls
        ∨ ∃ v ∈ selfAndDescendantsF queue.flatten, v.isSuite = false ∧ v.oid = o := by
  induction run, queue using enqueueWalk.induct with
  | case1 run => simp [enqueueWalk, selfAndDescendantsF]
  | case2 run batch stack p ih =>
    rw [enqueueWalk]
    obtain ⟨hout, hmem⟩ := ih
    obtain ⟨h1, h2, h3⟩ := forBatch_spec batch run stack
    constructor
    · rw [hout, h2]
    · intro o
      rw [hmem o, h1, h3]
      constructor
      · rintro (hc | ⟨v, hv, hs, ho⟩)
        · rcases List.mem_append.mp hc with h | h
          · exact Or.inl h
          · obtain ⟨v, hv, heq⟩ := List.mem_map.mp h
            obtain ⟨hvb, hns⟩ := List.mem_filter.mp hv
            refine Or.inr ⟨v, ?_, by simpa using hns, by simpa using heq⟩
            rw [List.flatten_cons]
            rw [selfAndDescendantsF_append]
            exact List.mem_append.mpr (Or.inl
              ((mem_selfAndDescendantsF batch v).mpr ⟨v, hvb, Or.inl rfl⟩))
        · rw [mem_selfAndDescendantsF_join] at hv
          obtain ⟨l, hl, hvl⟩ := hv
          rcases List.mem_append.mp hl with hrev | hstk
          · obtain ⟨t, ht, rfl⟩ := List.mem_map.mp (List.mem_reverse.mp hrev)
            refine Or.inr ⟨v, ?_, hs, ho⟩
            rw [List.flatten_cons, selfAndDescendantsF_append]
            exact List.mem_append.mpr (Or.inl
              ((mem_selfAndDescendantsF batch v).mpr ⟨t, ht, Or.inr hvl⟩))
          · refine Or.inr ⟨v, ?_, hs, ho⟩
            rw [List.flatten_cons, selfAndDescendantsF_append]
            refine List.mem_append.mpr (Or.inr ?_)
            exact (mem_selfAndDescendantsF_join stack v).mpr ⟨l, hstk, hvl⟩
      · rintro (hc | ⟨v, hv, hs, ho⟩)
        · exact Or.inl (List.mem_append.mpr (Or.inl hc))
        · rw [List.flatten_cons, selfAndDescendantsF_append] at hv
          rcases List.mem_append.mp hv with hb | hstk
          · rw [mem_selfAndDescendantsF] at hb
            obtain ⟨t, ht, rfl | hvc⟩ := hb
            · refine Or.inl (List.mem_append.mpr (Or.inr ?_))
              refine List.mem_map.mpr ⟨v, List.mem_filter.mpr ⟨ht, by simpa using hs⟩, ?_⟩
              rw [ho]
            · refine Or.inr ⟨v, ?_, hs, ho⟩
              rw [mem_selfAndDescendantsF_join]
              refine ⟨t.children, ?_, hvc⟩
              exact List.mem_append.mpr (Or.inl
                (List.mem_reverse.mpr (List.mem_map.mpr ⟨t, ht, rfl⟩)))
          · refine Or.inr ⟨v, ?_, hs, ho⟩
            rw [mem_selfAndDescendantsF_join] at hstk ⊢
            obtain ⟨l, hl, hvl⟩ := hstk
            exact ⟨l, List.mem_append.mpr (Or.inr hl), hvl⟩

/-- C5 (amended): after `run([A, B])` without debugging, the `started`
event carrying correlation token `T` registers the run session under `T`
and — the converter having had no active session — under no other token,
with exactly the non-suite items among `A`, `B` and their descendants
marked enqueued (suites are skipped by the `!metadata.get(test)?.isSuite`
guard); and any state event whose token has no registered session is a
no-op. -/
theorem run_started_enqueues_under_token (st : ConvState) (A B : VTestItem)
    (T : String) (hasDebug : Bool) (hempty : st.tasksByRunId = []) :
    (∃ data,
      (onRunStarted st (runMethod st (some [A, B]) false hasDebug) {} (some T)).tasksByRunId
        = [(T, data)] ∧
      data.announcedTests = [] ∧
      data.task.output = [] ∧
      (∀ o, RunCall.enqueued o ∈ data.task.calls ↔
        ∃ v ∈ selfAndDescendantsF [A, B], v.isSuite = false ∧ v.oid = o)) ∧
    (∀ (evt : TestStateEvent) (st2 : ConvState),
      mapGet st2.tasksByRunId (evt.testRunId.getD "") = none →
      handleTestStates evt st2 = st2) := by
  constructor
  · refine ⟨⟨enqueueWalk {} [[A, B]], []⟩, ?_, rfl, ?_, ?_⟩
    · simp [onRunStarted, runMethod, hempty, mapSet]
    · simpa using (enqueueWalk_spec [[A, B]] {}).1
    · intro o
      have h := (enqueueWalk_spec [[A, B]] {}).2 o
      simpa using h
  · intro evt st2 h
    simp [handleTestStates, h]

/-- Witness for C5 at a concrete input: two plain leaf tests. -/
theorem run_started_enqueues_under_token_witness :
    (∃ data,
      (onRunStarted {} (runMethod {}
          (some [VTestItem.mk { oid := 0, id := "A", label := "A" } [],
            VTestItem.mk { oid := 1, id := "B", label := "B" } []]) false false) {}
          (some "T")).tasksByRunId
        = [("T", data)] ∧
      data.announcedTests = [] ∧
      data.task.output = [] ∧
      (∀ o, RunCall.enqueued o ∈ data.task.calls ↔
        ∃ v ∈ selfAndDescendantsF [VTestItem.mk { oid := 0, id := "A", label := "A" } [],
            VTestItem.mk { oid := 1, id := "B", label := "B" } []],
          v.isSuite = false ∧ v.oid = o)) ∧
    (∀ (evt : TestStateEvent) (st2 : ConvState),
      mapGet st2.tasksByRunId (evt.testRunId.getD "") = none →
      handleTestStates evt st2 = st2) :=
  run_started_enqueues_under_token {} _ _ "T" false rfl

/-- Counterexample to C5 as stated: when `A` is a suite, `A` itself is
never marked enqueued — only its non-suite descendants and `B` are — even
though the session is registered under the token. -/
theorem run_started_suite_not_enqueued :
    ∃ data,
      mapGet (onRunStarted {} (runMethod {}
          (some [VTestItem.mk { oid := 0, id := "A", label := "A", isSuite := true }
              [VTestItem.mk { oid := 1, id := "A1", label := "A1" } []],
            VTestItem.mk { oid := 2, id := "B", label := "B" } []]) false false) {}
          (some "T")).tasksByRunId "T" = some data ∧
      RunCall.enqueued 1 ∈ data.task.calls ∧
      RunCall.enqueued 2 ∈ data.task.calls ∧
      RunCall.enqueued 0 ∉ data.task.calls := by
  have hA : (VTestItem.mk { oid := 0, id := "A", label := "A", isSuite := true }
      [VTestItem.mk { oid := 1, id := "A1", label := "A1" } []]).isSuite = true := rfl
  refine ⟨⟨enqueueWalk {} [[VTestItem.mk { oid := 0, id := "A", label := "A", isSuite := true }
      [VTestItem.mk { oid := 1, id := "A1", label := "A1" } []],
    VTestItem.mk { oid := 2, id := "B", label := "B" } []]], []⟩, ?_, ?_, ?_, ?_⟩
  · simp [onRunStarted, runMethod, mapSet, mapGet]
  · rw [(enqueueWalk_spec _ _).2 1]
    refine Or.inr ⟨VTestItem.mk { oid := 1, id := "A1", label := "A1" } [], ?_, rfl, rfl⟩
    simp only [List.flatten, List.append_nil]
    rw [mem_selfAndDescendantsF]
    refine ⟨VTestItem.mk { oid := 0, id := "A", label := "A", isSuite := true }
      [VTestItem.mk { oid := 1, id := "A1", label := "A1" } []], by simp, Or.inr ?_⟩
    rw [mem_selfAndDescendantsF]
    exact ⟨_, by simp [VTestItem.children], Or.inl rfl⟩
  · rw [(enqueueWalk_spec _ _).2 2]
    refine Or.inr ⟨VTestItem.mk { oid := 2, id := "B", label := "B" } [], ?_, rfl, rfl⟩
    simp only [List.flatten, List.append_nil]
    rw [mem_selfAndDescendantsF]
    exact ⟨_, by simp, Or.inl rfl⟩
  · rw [(enqueueWalk_spec _ _).2 0]
    rintro (h | ⟨v, hv, hs, ho⟩)
    · simp at h
    · simp only [List.flatten, List.append_nil] at hv
      rw [mem_selfAndDescendantsF] at hv
      obtain ⟨t, ht, hvt⟩ := hv
      simp only [List.mem_cons, List.not_mem_nil, or_false] at ht
      rcases ht with rfl | rfl
      · rcases hvt with rfl | hvc
        · exact absurd hs (by rw [hA]; decide)
        · rw [show (VTestItem.mk { oid := 0, id := "A", label := "A", isSuite := true }
              [VTestItem.mk { oid := 1, id := "A1", label := "A1" } []]).children
            = [VTestItem.mk { oid := 1, id := "A1", label := "A1" } []] from rfl,
            mem_selfAndDescendantsF] at hvc
          obtain ⟨t2, ht2, hvt2⟩ := hvc
          simp only [List.mem_cons, List.not_mem_nil, or_false] at ht2
          subst ht2
          rcases hvt2 with rfl | hvc2
          · simp [VTestItem.oid, VTestItem.fields] at ho
          · rw [show (VTestItem.mk { oid := 1, id := "A1", label := "A1" } []).children
                = [] from rfl, mem_selfAndDescendantsF] at hvc2
            simp at hvc2
      · rcases hvt with rfl | hvc
        · simp [VTestItem.oid, VTestItem.fields] at ho
        · rw [show (VTestItem.mk { oid := 2, id := "B", label := "B" } []).children
              = [] from rfl, mem_selfAndDescendantsF] at hvc
          simp at hvc

/-- Witness for C10 at a concrete input: the empty `finished` event on a
converter holding one mapped item empties the map, keeps the tree, and a
later bare-id test event for that item changes nothing. -/
theorem finished_clears_itemsById_witness :
    (handleTests {} (.finished {})
        { items := [VTestItem.mk { oid := 0, id := "a", label := "A" } []],
          reg := ⟨1, [("a", 0)]⟩ }).reg.itemsById = [] ∧
    (handleTests {} (.finished {})
        { items := [VTestItem.mk { oid := 0, id := "a", label := "A" } []],
          reg := ⟨1, [("a", 0)]⟩ }).items
      = ({ items := [VTestItem.mk { oid := 0, id := "a", label := "A" } []],
           reg := ⟨1, [("a", 0)]⟩ } : ConvState).items ∧
    (∀ (e : TestEvent) (tid : String), e.test = Sum.inl tid →
      handleTestStates (.test e) (handleTests {} (.finished {})
          { items := [VTestItem.mk { oid := 0, id := "a", label := "A" } []],
            reg := ⟨1, [("a", 0)]⟩ })
        = handleTests {} (.finished {})
            { items := [VTestItem.mk { oid := 0, id := "a", label := "A" } []],
              reg := ⟨1, [("a", 0)]⟩ }) :=
  (finished_clears_itemsById {}).2 {}
    { items := [VTestItem.mk { oid := 0, id := "a", label := "A" } []],
      reg := ⟨1, [("a", 0)]⟩ } rfl rfl

/-- Witness for C2 at a concrete input: a duplicated id in one descriptor
list. -/
theorem syncItemChildren_dedupes_keeping_first_witness :
    ((syncItemChildrenList [TestItemInfo.test { id := "a", label := "first" },
        TestItemInfo.test { id := "a", label := "second" }] none ⟨0, []⟩).1.map VTestItem.id)
      = dedupKeepFirst ([TestItemInfo.test { id := "a", label := "first" },
          TestItemInfo.test { id := "a", label := "second" }].map TestItemInfo.id) ∧
    ∀ v ∈ (syncItemChildrenList [TestItemInfo.test { id := "a", label := "first" },
        TestItemInfo.test { id := "a", label := "second" }] none ⟨0, []⟩).1,
      ∃ d, ([TestItemInfo.test { id := "a", label := "first" },
          TestItemInfo.test { id := "a", label := "second" }].filter
            (fun x => decide (x.id = v.id))).head? = some d ∧
        MatchesDesc none v d :=
  syncItemChildren_dedupes_keeping_first
    [TestItemInfo.test { id := "a", label := "first" },
      TestItemInfo.test { id := "a", label := "second" }] none ⟨0, []⟩

theorem mapGet_mapSet_self {α : Type} (m : List (String × α)) (k : String) (v : α) :
    mapGet (mapSet m k v) k = some v := by
  induction m with
  | nil => simp [mapSet, mapGet]
  | cons p rest ih =>
    obtain ⟨k2, v2⟩ := p
    by_cases h : k2 = k <;> simp [mapSet, mapGet, h, ih]

theorem mapGet_mapSet_of_ne {α : Type} (m : List (String × α)) (k k2 : String) (v : α)
    (h : k2 ≠ k) : mapGet (mapSet m k v) k2 = mapGet m k2 := by
  induction m with
  | nil => simp [mapSet, mapGet, Ne.symm h]
  | cons p rest ih =>
    obtain ⟨k3, v3⟩ := p
    by_cases h3 : k3 = k
    · subst h3
      simp [mapSet, mapGet, Ne.symm h]
    · simp only [mapSet, if_neg h3]
      by_cases h4 : k3 = k2 <;> simp [mapGet, h4, ih]

theorem isSome_mapGet_mapSet {α : Type} (m : List (String × α)) (k k2 : String) (v : α)
    (h : (mapGet m k2).isSome) : (mapGet (mapSet m k v) k2).isSome := by
  by_cases he : k2 = k
  · subst he
    rw [mapGet_mapSet_self]
    rfl
  · rw [mapGet_mapSet_of_ne m k k2 v he]
    exact h

theorem createTest_snd_test (f : InfoFields) (u : Option Uri) (reg : Registry) :
    (createTest (.test f) u reg).2
      = ⟨reg.nextOid + 1, mapSet reg.itemsById f.id reg.nextOid⟩ := by
  simp [createTest, TestItemInfo.id, TestItemInfo.info]

theorem createTest_snd_suite (f : InfoFields) (cs : List TestItemInfo) (u : Option Uri)
    (reg : Registry) :
    (createTest (.suite f cs) u reg).2
      = (syncItemChildrenList cs none
          ⟨reg.nextOid + 1, mapSet reg.itemsById f.id reg.nextOid⟩).2 := by
  simp [createTest, TestItemInfo.id, TestItemInfo.info]

theorem createTest_itemsById_mono (n : Nat) :
    (∀ (d : TestItemInfo) (u : Option Uri) (reg : Registry) (k : String), sizeOf d ≤ n →
      (mapGet reg.itemsById k).isSome →
      (mapGet ((createTest d u reg).2).itemsById k).isSome) ∧
    (∀ (l : List TestItemInfo) (u : Option Uri) (reg : Registry) (k : String), sizeOf l ≤ n →
      (mapGet reg.itemsById k).isSome →
      (mapGet ((createAll l u reg).2).itemsById k).isSome) := by
  induction n using Nat.strong_induction_on with
  | _ n ih =>
    constructor
    · intro d u reg k hsz hsome
      cases d with
      | test f =>
        rw [createTest_snd_test]
        exact isSome_mapGet_mapSet _ _ _ _ hsome
      | suite f cs =>
        rw [createTest_snd_suite, syncItemChildrenList]
        have hu := sizeOf_uniqueGo_le (T := TestItemInfo) TestItemInfo.id [] cs
        have hcs : sizeOf cs < sizeOf (TestItemInfo.suite f cs) := by
          simp only [TestItemInfo.suite.sizeOf_spec]
          omega
        have hn : 1 ≤ n := by omega
        refine (ih (n - 1) (by omega)).2 _ none _ k ?_ ?_
        · simp only [unique]
          omega
        · exact isSome_mapGet_mapSet _ _ _ _ hsome
    · intro l u reg k hsz hsome
      cases l with
      | nil =>
        rw [createAll]
        exact hsome
      | cons t ts =>
        rw [createAll]
        simp only
        have h1 : sizeOf t < sizeOf (t :: ts) := by
          simp only [List.cons.sizeOf_spec]
          omega
        have h2 : sizeOf ts < sizeOf (t :: ts) := by
          simp only [List.cons.sizeOf_spec]
          omega
        have hn : 1 ≤ n := by omega
        refine (ih (n - 1) (by omega)).2 ts u _ k (by omega) ?_
        exact (ih (n - 1) (by omega)).1 t u reg k (by omega) hsome

theorem isSome_mapGet_createTest_self (d : TestItemInfo) (u : Option Uri) (reg : Registry) :
    (mapGet ((createTest d u reg).2).itemsById d.id).isSome := by
  cases d with
  | test f =>
    rw [createTest_snd_test]
    have : (TestItemInfo.test f).id = f.id := rfl
    rw [this, mapGet_mapSet_self]
    rfl
  | suite f cs =>
    rw [createTest_snd_suite, syncItemChildrenList]
    have : (TestItemInfo.suite f cs).id = f.id := rfl
    rw [this]
    refine (createTest_itemsById_mono (sizeOf (unique cs TestItemInfo.id))).2 _ none _ f.id
      le_rfl ?_
    rw [mapGet_mapSet_self]
    rfl

/-- C8 (amended): a test state event naming an id absent from `itemsById`
is ignored — the converter state is unchanged — *unless* the event carries
a full descriptor object, its state is `running`, and an innermost running
suite is registered for its token; only then is a new item created from
the descriptor, grafted under that suite, and the running state processed
for it. -/
theorem unknown_id_test_event (data : TaskData) (evt : TestEvent) (st : ConvState)
    (hunknown : mapGet st.reg.itemsById evt.testId = none) :
    (((∀ d, evt.test ≠ Sum.inr d) ∨ evt.state ≠ .running ∨
        mapGet st.runningSuiteByRunId (evt.testRunId.getD "") = none) →
      onTestEvent data evt st = st) ∧
    (∀ d suiteOid, evt.test = Sum.inr d → evt.state = .running →
      mapGet st.runningSuiteByRunId (evt.testRunId.getD "") = some suiteOid →
      ∃ o, mapGet ((createTest d none st.reg).2).itemsById evt.testId = some o ∧
        onTestEvent data evt st
          = { st with
              items := addChildF st.items suiteOid (createTest d none st.reg).1,
              reg := (createTest d none st.reg).2,
              tasksByRunId := mapSet st.tasksByRunId (evt.testRunId.getD "")
                ⟨(match evt.message with
                  | some m =>
                    { data.task with
                      calls := data.task.calls ++ [RunCall.started o],
                      output := data.task.output ++ [OutputEntry.raw (crlfNormalize m) none] }
                  | none => { data.task with calls := data.task.calls ++ [RunCall.started o] }),
                 data.announcedTests⟩ }) := by
  constructor
  · intro hcase
    obtain ⟨tst, state, rid, msg, decs⟩ := evt
    simp only [TestEvent.testId] at hunknown
    rcases hcase with hbare | hns | hno
    · cases tst with
      | inl s =>
        cases state <;> simp [onTestEvent, TestEvent.testId, hunknown]
      | inr d => exact absurd rfl (hbare d)
    · simp only at hns
      cases state <;> first
        | exact absurd rfl hns
        | (cases tst <;> simp [onTestEvent, TestEvent.testId, hunknown])
    · simp only at hno
      cases tst <;> cases state <;>
        simp [onTestEvent, TestEvent.testId, hunknown, hno]
  · intro d suiteOid htest hstate hsuite
    obtain ⟨tst, state, rid, msg, decs⟩ := evt
    simp only at htest hstate hsuite
    subst htest
    subst hstate
    simp only [TestEvent.testId] at hunknown ⊢
    have ho := isSome_mapGet_createTest_self d none st.reg
    obtain ⟨o, ho2⟩ := Option.isSome_iff_exists.mp ho
    refine ⟨o, ho2, ?_⟩
    rcases hc : createTest d none st.reg with ⟨newItem, reg1⟩
    rw [hc] at ho2
    cases msg <;>
      simp [onTestEvent, TestEvent.testId, hunknown, hsuite, hc, ho2]

/-- Witness for C8 at a concrete input: a bare-id event for an unknown id
on a fresh converter is dropped. -/
theorem unknown_id_test_event_witness :
    onTestEvent ⟨{}, []⟩ { test := Sum.inl "x", state := TestEvtState.running } {} = {} :=
  (unknown_id_test_event ⟨{}, []⟩ { test := Sum.inl "x", state := .running } {} rfl).1
    (Or.inl (fun _ h => Sum.noConfusion h))

/-- Counterexample to C8 as stated: an event that carries a full
descriptor for an unknown id but reports state `passed` — with a running
suite registered for its token — is dropped entirely: the converter state
is unchanged and no item is created, although the claim promises creation
for any state event carrying a descriptor. -/
theorem unknown_id_descriptor_passed_ignored :
    handleTestStates
        (.test { test := Sum.inr (TestItemInfo.test { id := "new", label := "N" }),
                 state := .passed, testRunId := some "T" })
        { items := [VTestItem.mk { oid := 0, id := "S", label := "S", isSuite := true } []],
          reg := ⟨1, [("S", 0)]⟩,
          tasksByRunId := [("T", ⟨{}, []⟩)],
          runningSuiteByRunId := [("T", 0)] }
      = { items := [VTestItem.mk { oid := 0, id := "S", label := "S", isSuite := true } []],
          reg := ⟨1, [("S", 0)]⟩,
          tasksByRunId := [("T", ⟨{}, []⟩)],
          runningSuiteByRunId := [("T", 0)] } ∧
    (∀ v ∈ selfAndDescendantsF
        [VTestItem.mk { oid := 0, id := "S", label := "S", isSuite := true } []],
      v.id ≠ "new") := by
  constructor
  · exact (unknown_id_test_event ⟨{}, []⟩
      { test := Sum.inr (TestItemInfo.test { id := "new", label := "N" }),
        state := .passed, testRunId := some "T" }
      { items := [VTestItem.mk { oid := 0, id := "S", label := "S", isSuite := true } []],
        reg := ⟨1, [("S", 0)]⟩,
        tasksByRunId := [("T", ⟨{}, []⟩)],
        runningSuiteByRunId := [("T", 0)] } rfl).1
      (Or.inr (Or.inl (by decide)))
  · intro v hv
    rw [mem_selfAndDescendantsF] at hv
    obtain ⟨t, ht, h⟩ := hv
    simp only [List.mem_cons, List.not_mem_nil, or_false] at ht
    subst ht
    rcases h with rfl | hc
    · decide
    · rw [show (VTestItem.mk { oid := 0, id := "S", label := "S", isSuite := true }
          []).children = [] from rfl, mem_selfAndDescendantsF] at hc
      simp at hc

theorem setAdd_mem (s : List Nat) (a o : Nat) : o ∈ setAdd s a ↔ o ∈ s ∨ o = a := by
  by_cases h : a ∈ s
  · simp only [setAdd, if_pos h]
    constructor
    · exact Or.inl
    · rintro (h2 | rfl)
      · exact h2
      · exact h
  · simp [setAdd, if_neg h, List.mem_append]

theorem foldl_setAdd_mem (chain ann : List Nat) (o : Nat) :
    o ∈ chain.foldl setAdd ann ↔ o ∈ ann ∨ o ∈ chain := by
  induction chain generalizing ann with
  | nil => simp
  | cons c cs ih =>
    rw [List.foldl_cons, ih, setAdd_mem]
    simp only [List.mem_cons]
    tauto

theorem appendState_eq (items : List VTestItem) (task : TestRunModel) (o : Nat) :
    appendState items task o '▼' .green .plain
      = { task with output := task.output ++ [announceEntry items o] } := rfl

theorem announceAll_spec (items : List VTestItem) (chain : List Nat)
    (task : TestRunModel) (announced : List Nat) :
    announceAll items chain task announced
      = ({ task with
           output := task.output
             ++ (chain.filter (fun o => decide (childrenCount items o ≠ 0))).map
               (announceEntry items) },
         chain.foldl setAdd announced) := by
  induction chain generalizing task announced with
  | nil =>
    rw [announceAll]
    simp
  | cons o os ih =>
    rw [announceAll]
    by_cases hc : childrenCount items o ≠ 0
    · rw [if_pos hc, appendState_eq, ih, List.filter_cons, List.foldl_cons]
      have hd : decide (childrenCount items o ≠ 0) = true := by simpa using hc
      rw [hd]
      simp [List.append_assoc]
    · rw [if_neg hc, ih, List.filter_cons, List.foldl_cons]
      have hd : decide (childrenCount items o ≠ 0) = false := by simpa using hc
      rw [hd]
      simp

theorem takeWhile_reverse_suffix {α : Type} (l : List α) (q : α → Bool) :
    (l.reverse.takeWhile q).reverse
      = l.drop ((l.reverse.dropWhile q).reverse).length := by
  set A := (l.reverse.dropWhile q).reverse with hA
  set B := (l.reverse.takeWhile q).reverse with hB
  have hsplit : l = A ++ B := by
    rw [hA, hB, ← List.reverse_append, List.takeWhile_append_dropWhile, List.reverse_reverse]
  conv_rhs => rw [hsplit]
  rw [List.drop_left]

theorem mem_takeWhile_reverse {α : Type} (l : List α) (q : α → Bool) (x : α)
    (h : x ∈ (l.reverse.takeWhile q).reverse) : q x = true := by
  rw [List.mem_reverse] at h
  exact List.mem_takeWhile_imp h

theorem nodup_takeWhile_reverse {α : Type} (l : List α) (q : α → Bool)
    (h : l.Nodup) : ((l.reverse.takeWhile q).reverse).Nodup := by
  rw [takeWhile_reverse_suffix]
  exact h.sublist (List.drop_sublist _ _)

theorem selfAndDescendantsF_cons (v : VTestItem) (vs : List VTestItem) :
    selfAndDescendantsF (v :: vs) = selfAndDescendants v ++ selfAndDescendantsF vs := by
  rw [selfAndDescendantsF]

theorem pathTo_mem_oids (n : Nat) :
    (∀ (l : List VTestItem) (oid : Nat) (p : List Nat), sizeOf l ≤ n →
      pathToF l oid = some p →
      ∀ x ∈ p, x ∈ (selfAndDescendantsF l).map VTestItem.oid) ∧
    (∀ (v : VTestItem) (oid : Nat) (p : List Nat), sizeOf v ≤ n →
      pathToI v oid = some p →
      ∀ x ∈ p, x ∈ (selfAndDescendants v).map VTestItem.oid) := by
  induction n using Nat.strong_induction_on with
  | _ n ih =>
    constructor
    · intro l oid p hsz hp x hx
      cases l with
      | nil => rw [pathToF] at hp; exact absurd hp (by simp)
      | cons v vs =>
        rw [pathToF] at hp
        have h1 : sizeOf v < sizeOf (v :: vs) := by
          simp only [List.cons.sizeOf_spec]; omega
        have h2 : sizeOf vs < sizeOf (v :: vs) := by
          simp only [List.cons.sizeOf_spec]; omega
        have hn : 1 ≤ n := by omega
        rw [selfAndDescendantsF_cons, List.map_append]
        cases hpi : pathToI v oid with
        | some p2 =>
          rw [hpi] at hp
          simp only [Option.some.injEq] at hp
          subst hp
          exact List.mem_append.mpr (Or.inl
            ((ih (n - 1) (by omega)).2 v oid p2 (by omega) hpi x hx))
        | none =>
          rw [hpi] at hp
          simp only at hp
          exact List.mem_append.mpr (Or.inr
            ((ih (n - 1) (by omega)).1 vs oid p (by omega) hp x hx))
    · intro v oid p hsz hp x hx
      cases v with
      | mk f cs =>
        rw [pathToI] at hp
        rw [selfAndDescendants_eq]
        by_cases he : f.oid = oid
        · rw [if_pos he] at hp
          simp only [Option.some.injEq] at hp
          subst hp
          simp only [List.mem_singleton] at hx
          subst hx
          simp [VTestItem.oid, VTestItem.fields]
        · rw [if_neg he] at hp
          cases hpf : pathToF cs oid with
          | none => rw [hpf] at hp; exact absurd hp (by simp)
          | some p2 =>
            rw [hpf] at hp
            have hp2 : f.oid :: p2 = p := by simpa using hp
            subst hp2
            have hcs : sizeOf cs < sizeOf (VTestItem.mk f cs) := by
              simp only [VTestItem.mk.sizeOf_spec]; omega
            have hn : 1 ≤ n := by omega
            rcases List.mem_cons.mp hx with rfl | hx2
            · simp [VTestItem.oid, VTestItem.fields]
            · have := (ih (n - 1) (by omega)).1 cs oid p2 (by omega) hpf x hx2
              simp only [List.map_cons, List.mem_cons]
              right
              simpa [VTestItem.children] using this

theorem pathTo_nodup (n : Nat) :
    (∀ (l : List VTestItem) (oid : Nat) (p : List Nat), sizeOf l ≤ n →
      ((selfAndDescendantsF l).map VTestItem.oid).Nodup →
      pathToF l oid = some p → p.Nodup) ∧
    (∀ (v : VTestItem) (oid : Nat) (p : List Nat), sizeOf v ≤ n →
      ((selfAndDescendants v).map VTestItem.oid).Nodup →
      pathToI v oid = some p → p.Nodup) := by
  induction n using Nat.strong_induction_on with
  | _ n ih =>
    constructor
    · intro l oid p hsz hnd hp
      cases l with
      | nil => rw [pathToF] at hp; exact absurd hp (by simp)
      | cons v vs =>
        rw [pathToF] at hp
        rw [selfAndDescendantsF_cons, List.map_append] at hnd
        have h1 : sizeOf v < sizeOf (v :: vs) := by
          simp only [List.cons.sizeOf_spec]; omega
        have h2 : sizeOf vs < sizeOf (v :: vs) := by
          simp only [List.cons.sizeOf_spec]; omega
        have hn : 1 ≤ n := by omega
        cases hpi : pathToI v oid with
        | some p2 =>
          rw [hpi] at hp
          simp only [Option.some.injEq] at hp
          subst hp
          exact (ih (n - 1) (by omega)).2 v oid p2 (by omega) hnd.of_append_left hpi
        | none =>
          rw [hpi] at hp
          simp only at hp
          exact (ih (n - 1) (by omega)).1 vs oid p (by omega) hnd.of_append_right hp
    · intro v oid p hsz hnd hp
      cases v with
      | mk f cs =>
        rw [pathToI] at hp
        rw [selfAndDescendants_eq] at hnd
        simp only [List.map_cons, List.nodup_cons] at hnd
        by_cases he : f.oid = oid
        · rw [if_pos he] at hp
          simp only [Option.some.injEq] at hp
          subst hp
          simp
        · rw [if_neg he] at hp
          cases hpf : pathToF cs oid with
          | none => rw [hpf] at hp; exact absurd hp (by simp)
          | some p2 =>
            rw [hpf] at hp
            have hp2 : f.oid :: p2 = p := by simpa using hp
            subst hp2
            have hcs : sizeOf cs < sizeOf (VTestItem.mk f cs) := by
              simp only [VTestItem.mk.sizeOf_spec]; omega
            have hn : 1 ≤ n := by omega
            have hchildren : (VTestItem.mk f cs).children = cs := rfl
            rw [List.nodup_cons]
            constructor
            · intro hmem
              apply hnd.1
              have := (pathTo_mem_oids (sizeOf cs)).1 cs oid p2 le_rfl hpf
                ((VTestItem.mk f cs).oid) (by simpa [VTestItem.oid, VTestItem.fields] using hmem)
              simpa [hchildren, VTestItem.oid, VTestItem.fields] using this
            · refine (ih (n - 1) (by omega)).1 cs oid p2 (by omega) ?_ hpf
              simpa [hchildren] using hnd.2

theorem path_nodup_of_ok (st : ConvState) (hok : StateOidsOk st) (oid : Nat) :
    ((pathToF st.items oid).getD [oid]).Nodup := by
  cases hp : pathToF st.items oid with
  | none => simp
  | some p =>
    simp only [Option.getD_some]
    exact (pathTo_nodup (sizeOf st.items)).1 st.items oid p le_rfl hok.1 hp

theorem ensureChainAnnounced_spec (items : List VTestItem) (task : TestRunModel)
    (ann : List Nat) (leafOid : Nat) :
    ensureChainAnnounced items task ann leafOid
      = ({ task with
           output := task.output
             ++ ((chainOf items ann leafOid).filter
                 (fun o => decide (childrenCount items o ≠ 0))).map (announceEntry items) },
         (chainOf items ann leafOid).foldl setAdd ann) := by
  rw [ensureChainAnnounced, announceAll_spec]
  rfl

theorem chainOf_suffix (items : List VTestItem) (ann : List Nat) (leafOid : Nat) :
    ∃ k, chainOf items ann leafOid = ((pathToF items leafOid).getD [leafOid]).drop k :=
  ⟨_, takeWhile_reverse_suffix _ _⟩

theorem chainOf_not_announced (items : List VTestItem) (ann : List Nat) (leafOid : Nat) :
    ∀ o ∈ chainOf items ann leafOid, o ∉ ann := by
  intro o ho
  have := mem_takeWhile_reverse _ _ _ ho
  simpa using this

theorem chainOf_nodup (st : ConvState) (hok : StateOidsOk st) (ann : List Nat)
    (leafOid : Nat) : (chainOf st.items ann leafOid).Nodup :=
  nodup_takeWhile_reverse _ _ (path_nodup_of_ok st hok leafOid)

theorem appendState_eq_line (items : List VTestItem) (task : TestRunModel) (o : Nat)
    (sym : Char) (c1 c2 : ColorTag) :
    appendState items task o sym c1 c2
      = { task with output := task.output
          ++ [.stateLine o (((pathToF items o).getD [o]).length - 1) sym c1 c2
              (((findItemF items o).map (fun (v : VTestItem) => v.fields.label)).getD "")] } := rfl

theorem onTestEvent_terminal (data : TaskData) (evt : TestEvent) (st : ConvState) (oid : Nat)
    (hterm : evt.state = .passed ∨ evt.state = .failed ∨ evt.state = .errored)
    (hknown : mapGet st.reg.itemsById evt.testId = some oid) :
    ∃ (rest : List OutputEntry) (c : RunCall),
      onTestEvent data evt st
        = { st with tasksByRunId := (mapSet st.tasksByRunId (evt.testRunId.getD "")
            ⟨{ output := data.task.output
                ++ ((chainOf st.items data.announcedTests oid).filter
                    (fun o => decide (childrenCount st.items o ≠ 0))).map (announceEntry st.items)
                ++ rest,
               calls := data.task.calls ++ [c] },
              (chainOf st.items data.announcedTests oid).foldl setAdd data.announcedTests⟩) } ∧
      (∀ e ∈ rest, isAnnounceB e = false) ∧
      (∃ sym symc txtc lbl, sym ≠ '▼' ∧
        rest.head? = some (.stateLine oid
          (((pathToF st.items oid).getD [oid]).length - 1) sym symc txtc lbl)) ∧
      (c = RunCall.passed oid ∨ (∃ msgs, c = RunCall.failed oid msgs) ∨
        (∃ msgs, c = RunCall.errored oid msgs)) := by
  obtain ⟨tst, state, rid, msg, decs⟩ := evt
  simp only at hterm
  simp only [TestEvent.testId] at hknown
  rcases hterm with rfl | rfl | rfl
  · -- passed
    refine ⟨.stateLine oid (((pathToF st.items oid).getD [oid]).length - 1) '✔' .green .plain
        (((findItemF st.items oid).map (fun (v : VTestItem) => v.fields.label)).getD "")
      :: (match msg with
          | some m => [OutputEntry.raw (crlfNormalize m) none]
          | none => []), .passed oid, ?_, ?_, ?_, ?_⟩
    · cases msg <;>
        simp [onTestEvent, TestEvent.testId, hknown, ensureChainAnnounced_spec,
          appendState_eq_line, List.append_assoc]
    · intro e he
      simp only [List.mem_cons] at he
      rcases he with rfl | he
      · rfl
      · cases msg with
        | none => simp at he
        | some m =>
          simp only [List.mem_singleton] at he
          subst he
          rfl
    · exact ⟨'✔', .green, .plain, _, by decide, rfl⟩
    · exact Or.inl rfl
  · -- failed
    refine ⟨.stateLine oid (((pathToF st.items oid).getD [oid]).length - 1) '✖' .red .red
        (((findItemF st.items oid).map (fun (v : VTestItem) => v.fields.label)).getD "")
      :: ((match msg with
          | some m => [OutputEntry.raw (crlfNormalize m) (some oid)]
          | none => [])
        ++ (if (msg.isSome ∧
              ((findItemF st.items oid).map (fun (v : VTestItem) => v.fields.uri)).getD none = none) then
            [OutputEntry.raw (crlfNormalize (msg.getD "")) none] else [])),
      .failed oid ((match msg with
        | some m => if (decs.getD []).length = 0 then [({ message := m } : TestMessage)] else []
        | none => [])
        ++ (decs.getD []).map (fun (dec : TestDecoration) =>
          { message := dec.message,
            location := (match dec.file with
              | some f => some (fileToUri f)
              | none => ((findItemF st.items oid).map (fun (v : VTestItem) => v.fields.uri)).getD none).map
                (fun u => (u, dec.line)) })), ?_, ?_, ?_, ?_⟩
    · cases msg with
      | none =>
        by_cases hu : ((findItemF st.items oid).map (fun (v : VTestItem) => v.fields.uri)).getD none = none <;>
          simp [onTestEvent, TestEvent.testId, hknown, ensureChainAnnounced_spec,
            failedOrErrored, appendState_eq_line, List.append_assoc, hu]
      | some m =>
        by_cases hd : decs.getD [] = [] <;>
        by_cases hu : ((findItemF st.items oid).map
            (fun (v : VTestItem) => v.fields.uri)).getD none = none <;>
          simp [onTestEvent, TestEvent.testId, hknown, ensureChainAnnounced_spec,
            failedOrErrored, appendState_eq_line, List.append_assoc, hu, hd,
            List.length_eq_zero]
    · intro e he
      simp only [List.mem_cons, List.mem_append] at he
      rcases he with rfl | he | he
      · rfl
      · cases msg with
        | none => simp at he
        | some m =>
          simp only [List.mem_singleton] at he
          subst he
          rfl
      · split at he
        · simp only [List.mem_singleton] at he
          subst he
          rfl
        · simp at he
    · exact ⟨'✖', .red, .red, _, by decide, rfl⟩
    · exact Or.inr (Or.inl ⟨_, rfl⟩)
  · -- errored
    refine ⟨.stateLine oid (((pathToF st.items oid).getD [oid]).length - 1) '✖' .red .red
        (((findItemF st.items oid).map (fun (v : VTestItem) => v.fields.label)).getD "")
      :: ((match msg with
          | some m => [OutputEntry.raw (crlfNormalize m) (some oid)]
          | none => [])
        ++ (if (msg.isSome ∧
              ((findItemF st.items oid).map (fun (v : VTestItem) => v.fields.uri)).getD none = none) then
            [OutputEntry.raw (crlfNormalize (msg.getD "")) none] else [])),
      .errored oid ((match msg with
        | some m => if (decs.getD []).length = 0 then [({ message := m } : TestMessage)] else []
        | none => [])
        ++ (decs.getD []).map (fun (dec : TestDecoration) =>
          { message := dec.message,
            location := (match dec.file with
              | some f => some (fileToUri f)
              | none => ((findItemF st.items oid).map (fun (v : VTestItem) => v.fields.uri)).getD none).map
                (fun u => (u, dec.line)) })), ?_, ?_, ?_, ?_⟩
    · cases msg with
      | none =>
        by_cases hu : ((findItemF st.items oid).map (fun (v : VTestItem) => v.fields.uri)).getD none = none <;>
          simp [onTestEvent, TestEvent.testId, hknown, ensureChainAnnounced_spec,
            failedOrErrored, appendState_eq_line, List.append_assoc, hu]
      | some m =>
        by_cases hd : decs.getD [] = [] <;>
        by_cases hu : ((findItemF st.items oid).map
            (fun (v : VTestItem) => v.fields.uri)).getD none = none <;>
          simp [onTestEvent, TestEvent.testId, hknown, ensureChainAnnounced_spec,
            failedOrErrored, appendState_eq_line, List.append_assoc, hu, hd,
            List.length_eq_zero]
    · intro e he
      simp only [List.mem_cons, List.mem_append] at he
      rcases he with rfl | he | he
      · rfl
      · cases msg with
        | none => simp at he
        | some m =>
          simp only [List.mem_singleton] at he
          subst he
          rfl
      · split at he
        · simp only [List.mem_singleton] at he
          subst he
          rfl
        · simp at he
    · exact ⟨'✖', .red, .red, _, by decide, rfl⟩
    · exact Or.inr (Or.inr ⟨_, rfl⟩)

theorem createTest_fst_test (f : InfoFields) (u : Option Uri) (reg : Registry) :
    (createTest (.test f) u reg).1
      = VTestItem.mk
          { oid := reg.nextOid, id := f.id, label := f.label,
            uri := (match f.file with | some x => some (fileToUri x) | none => u),
            description := f.description,
            range := (match f.line with
              | some line => some (line, 0, line + 1, 0)
              | none => none),
            error := (if f.errored then f.message.map TestItemError.text else none),
            isSuite := false } [] := by
  simp [createTest, TestItemInfo.info]

theorem createTest_fst_suite (f : InfoFields) (cs : List TestItemInfo) (u : Option Uri)
    (reg : Registry) :
    (createTest (.suite f cs) u reg).1
      = VTestItem.mk
          { oid := reg.nextOid, id := f.id, label := f.label,
            uri := (match f.file with | some x => some (fileToUri x) | none => u),
            description := f.description,
            range := (match f.line with
              | some line => some (line, 0, line + 1, 0)
              | none => none),
            error := (if f.errored then f.message.map TestItemError.text else none),
            isSuite := true }
          ((syncItemChildrenList cs none
            ⟨reg.nextOid + 1, mapSet reg.itemsById f.id reg.nextOid⟩).1) := by
  simp [createTest, TestItemInfo.info, TestItemInfo.id]

theorem createTest_oids (n : Nat) :
    (∀ (d : TestItemInfo) (u : Option Uri) (reg : Registry), sizeOf d ≤ n →
      reg.nextOid < ((createTest d u reg).2).nextOid ∧
      (∀ o ∈ (selfAndDescendants (createTest d u reg).1).map VTestItem.oid,
        reg.nextOid ≤ o ∧ o < ((createTest d u reg).2).nextOid) ∧
      ((selfAndDescendants (createTest d u reg).1).map VTestItem.oid).Nodup) ∧
    (∀ (l : List TestItemInfo) (u : Option Uri) (reg : Registry), sizeOf l ≤ n →
      reg.nextOid ≤ ((createAll l u reg).2).nextOid ∧
      (∀ o ∈ (selfAndDescendantsF (createAll l u reg).1).map VTestItem.oid,
        reg.nextOid ≤ o ∧ o < ((createAll l u reg).2).nextOid) ∧
      ((selfAndDescendantsF (createAll l u reg).1).map VTestItem.oid).Nodup) := by
  induction n using Nat.strong_induction_on with
  | _ n ih =>
    constructor
    · intro d u reg hsz
      cases d with
      | test f =>
        rw [createTest_fst_test, createTest_snd_test]
        refine ⟨by simp, ?_, ?_⟩
        · intro o ho
          rw [selfAndDescendants_eq] at ho
          simp only [VTestItem.children, selfAndDescendantsF, List.append_nil,
            List.map_cons, List.map_nil, List.mem_singleton] at ho
          subst ho
          simp [VTestItem.oid, VTestItem.fields]
        · rw [selfAndDescendants_eq]
          simp [VTestItem.children, selfAndDescendantsF]
      | suite f cs =>
        rw [createTest_fst_suite, createTest_snd_suite, syncItemChildrenList]
        have hu := sizeOf_uniqueGo_le (T := TestItemInfo) TestItemInfo.id [] cs
        have hcs : sizeOf cs < sizeOf (TestItemInfo.suite f cs) := by
          simp only [TestItemInfo.suite.sizeOf_spec]; omega
        have hn : 1 ≤ n := by omega
        have hrec := (ih (n - 1) (by omega)).2 (unique cs TestItemInfo.id) none
          ⟨reg.nextOid + 1, mapSet reg.itemsById f.id reg.nextOid⟩
          (by simp only [unique]; omega)
        obtain ⟨hmono, hrange, hnd⟩ := hrec
        simp only at hmono hrange hnd
        refine ⟨by omega, ?_, ?_⟩
        · intro o ho
          rw [selfAndDescendants_eq] at ho
          simp only [VTestItem.children, List.map_cons, List.mem_cons] at ho
          rcases ho with rfl | ho
          · constructor
            · simp [VTestItem.oid, VTestItem.fields]
            · simp only [VTestItem.oid, VTestItem.fields]
              omega
          · have := hrange o ho
            omega
        · rw [selfAndDescendants_eq]
          simp only [VTestItem.children, List.map_cons, List.nodup_cons]
          constructor
          · intro hmem
            have := hrange _ hmem
            simp only [VTestItem.oid, VTestItem.fields] at this
            omega
          · exact hnd
    · intro l u reg hsz
      cases l with
      | nil =>
        rw [createAll]
        refine ⟨le_rfl, ?_, by simp [selfAndDescendantsF]⟩
        intro o ho
        simp [selfAndDescendantsF] at ho
      | cons t ts =>
        rw [createAll]
        simp only
        have h1 : sizeOf t < sizeOf (t :: ts) := by
          simp only [List.cons.sizeOf_spec]; omega
        have h2 : sizeOf ts < sizeOf (t :: ts) := by
          simp only [List.cons.sizeOf_spec]; omega
        have hn : 1 ≤ n := by omega
        obtain ⟨ha1, ha2, ha3⟩ := (ih (n - 1) (by omega)).1 t u reg (by omega)
        obtain ⟨hb1, hb2, hb3⟩ := (ih (n - 1) (by omega)).2 ts u (createTest t u reg).2 (by omega)
        rw [selfAndDescendantsF_cons]
        refine ⟨by omega, ?_, ?_⟩
        · intro o ho
          rw [List.map_append, List.mem_append] at ho
          rcases ho with ho | ho
          · have := ha2 o ho
            omega
          · have := hb2 o ho
            omega
        · rw [List.map_append]
          rw [List.nodup_append]
          refine ⟨ha3, hb3, ?_⟩
          intro o hoa hob
          have := ha2 o hoa
          have := hb2 o hob
          omega

theorem collectionAdd_oid_count (cs : List VTestItem) (c : VTestItem) (x : Nat) :
    ((selfAndDescendantsF (collectionAdd cs c)).map VTestItem.oid).count x
      ≤ ((selfAndDescendantsF cs).map VTestItem.oid).count x
        + ((selfAndDescendants c).map VTestItem.oid).count x := by
  induction cs with
  | nil =>
    rw [collectionAdd, selfAndDescendantsF_cons]
    simp [selfAndDescendantsF]
  | cons v vs ih =>
    rw [collectionAdd]
    by_cases h : v.id = c.id
    · rw [if_pos h, selfAndDescendantsF_cons, selfAndDescendantsF_cons]
      simp only [List.map_append, List.count_append]
      omega
    · rw [if_neg h, selfAndDescendantsF_cons, selfAndDescendantsF_cons]
      simp only [List.map_append, List.count_append]
      omega

theorem addChild_no_target (n : Nat) :
    (∀ (l : List VTestItem) (target : Nat) (c : VTestItem), sizeOf l ≤ n →
      target ∉ (selfAndDescendantsF l).map VTestItem.oid →
      addChildF l target c = l) ∧
    (∀ (v : VTestItem) (target : Nat) (c : VTestItem), sizeOf v ≤ n →
      target ∉ (selfAndDescendants v).map VTestItem.oid →
      addChildI v target c = v) := by
  induction n using Nat.strong_induction_on with
  | _ n ih =>
    constructor
    · intro l target c hsz hmem
      cases l with
      | nil => rw [addChildF]
      | cons v vs =>
        rw [selfAndDescendantsF_cons, List.map_append] at hmem
        simp only [List.mem_append] at hmem
        push_neg at hmem
        have h1 : sizeOf v < sizeOf (v :: vs) := by
          simp only [List.cons.sizeOf_spec]; omega
        have h2 : sizeOf vs < sizeOf (v :: vs) := by
          simp only [List.cons.sizeOf_spec]; omega
        have hn : 1 ≤ n := by omega
        rw [addChildF,
          (ih (n - 1) (by omega)).2 v target c (by omega) hmem.1,
          (ih (n - 1) (by omega)).1 vs target c (by omega) hmem.2]
    · intro v target c hsz hmem
      cases v with
      | mk f cs =>
        rw [selfAndDescendants_eq] at hmem
        simp only [VTestItem.children, List.map_cons, List.mem_cons] at hmem
        push_neg at hmem
        have hne : f.oid ≠ target := by
          intro he
          exact hmem.1 (by simp [VTestItem.oid, VTestItem.fields, he])
        rw [addChildI, if_neg hne]
        have hcs : sizeOf cs < sizeOf (VTestItem.mk f cs) := by
          simp only [VTestItem.mk.sizeOf_spec]; omega
        have hn : 1 ≤ n := by omega
        rw [(ih (n - 1) (by omega)).1 cs target c (by omega) hmem.2]

theorem addChild_oid_count (n : Nat) :
    (∀ (l : List VTestItem) (target : Nat) (c : VTestItem) (x : Nat), sizeOf l ≤ n →
      ((selfAndDescendantsF l).map VTestItem.oid).count target ≤ 1 →
      ((selfAndDescendantsF (addChildF l target c)).map VTestItem.oid).count x
        ≤ ((selfAndDescendantsF l).map VTestItem.oid).count x
          + ((selfAndDescendants c).map VTestItem.oid).count x) ∧
    (∀ (v : VTestItem) (target : Nat) (c : VTestItem) (x : Nat), sizeOf v ≤ n →
      ((selfAndDescendants v).map VTestItem.oid).count target ≤ 1 →
      ((selfAndDescendants (addChildI v target c)).map VTestItem.oid).count x
        ≤ ((selfAndDescendants v).map VTestItem.oid).count x
          + ((selfAndDescendants c).map VTestItem.oid).count x) := by
  induction n using Nat.strong_induction_on with
  | _ n ih =>
    constructor
    · intro l target c x hsz hcnt
      cases l with
      | nil =>
        rw [addChildF]
        simp
      | cons v vs =>
        have h1 : sizeOf v < sizeOf (v :: vs) := by
          simp only [List.cons.sizeOf_spec]; omega
        have h2 : sizeOf vs < sizeOf (v :: vs) := by
          simp only [List.cons.sizeOf_spec]; omega
        have hn : 1 ≤ n := by omega
        rw [addChildF, selfAndDescendantsF_cons, selfAndDescendantsF_cons,
          List.map_append, List.map_append, List.count_append, List.count_append]
        rw [selfAndDescendantsF_cons, List.map_append, List.count_append] at hcnt
        by_cases hin : target ∈ (selfAndDescendants v).map VTestItem.oid
        · have hvs : target ∉ (selfAndDescendantsF vs).map VTestItem.oid := by
            intro hvs
            have hv1 : 1 ≤ ((selfAndDescendants v).map VTestItem.oid).count target :=
              List.one_le_count_iff.mpr hin
            have hv2 : 1 ≤ ((selfAndDescendantsF vs).map VTestItem.oid).count target :=
              List.one_le_count_iff.mpr hvs
            omega
          rw [(addChild_no_target (sizeOf vs)).1 vs target c le_rfl hvs]
          have := (ih (n - 1) (by omega)).2 v target c x (by omega) (by omega)
          omega
        · rw [(addChild_no_target (sizeOf v)).2 v target c le_rfl hin]
          have := (ih (n - 1) (by omega)).1 vs target c x (by omega) (by omega)
          omega
    · intro v target c x hsz hcnt
      cases v with
      | mk f cs =>
        have hcs : sizeOf cs < sizeOf (VTestItem.mk f cs) := by
          simp only [VTestItem.mk.sizeOf_spec]; omega
        have hn : 1 ≤ n := by omega
        rw [addChildI]
        by_cases he : f.oid = target
        · rw [if_pos he, selfAndDescendants_eq, selfAndDescendants_eq]
          simp only [VTestItem.children, List.map_cons, List.count_cons,
            VTestItem.oid, VTestItem.fields]
          have := collectionAdd_oid_count cs c x
          split <;> omega
        · rw [if_neg he, selfAndDescendants_eq, selfAndDescendants_eq]
          simp only [VTestItem.children, List.map_cons, List.count_cons,
            VTestItem.oid, VTestItem.fields]
          rw [selfAndDescendants_eq] at hcnt
          simp only [VTestItem.children, List.map_cons, List.count_cons,
            VTestItem.oid, VTestItem.fields] at hcnt
          have hc2 : ((selfAndDescendantsF cs).map VTestItem.oid).count target ≤ 1 := by
            split at hcnt <;> omega
          have := (ih (n - 1) (by omega)).1 cs target c x (by omega) hc2
          split <;> omega

theorem graft_preserves_ok (st : ConvState) (h : StateOidsOk st) (d : TestItemInfo)
    (suiteOid : Nat) :
    StateOidsOk
      { st with items := addChildF st.items suiteOid (createTest d none st.reg).1,
                reg := (createTest d none st.reg).2 } := by
  obtain ⟨hnd, hlt⟩ := h
  obtain ⟨hmono, hrange, hnewnd⟩ := (createTest_oids (sizeOf d)).1 d none st.reg le_rfl
  have hcnt1 : ((selfAndDescendantsF st.items).map VTestItem.oid).count suiteOid ≤ 1 :=
    List.nodup_iff_count_le_one.mp hnd suiteOid
  have hbound := fun x => (addChild_oid_count (sizeOf st.items)).1 st.items suiteOid
    (createTest d none st.reg).1 x le_rfl hcnt1
  constructor
  · dsimp only
    rw [List.nodup_iff_count_le_one]
    intro x
    have hb := hbound x
    by_cases hx : x < st.reg.nextOid
    · have hnew0 : ((selfAndDescendants (createTest d none st.reg).1).map VTestItem.oid).count x
          = 0 := by
        rw [List.count_eq_zero]
        intro hmem
        have := hrange x hmem
        omega
      have hold := List.nodup_iff_count_le_one.mp hnd x
      omega
    · have hold0 : ((selfAndDescendantsF st.items).map VTestItem.oid).count x = 0 := by
        rw [List.count_eq_zero]
        intro hmem
        obtain ⟨v, hv, rfl⟩ := List.mem_map.mp hmem
        exact hx (hlt v hv)
      have hnew := List.nodup_iff_count_le_one.mp hnewnd x
      omega
  · dsimp only
    intro v hv
    have hmem : v.oid ∈ (selfAndDescendantsF (addChildF st.items suiteOid
        (createTest d none st.reg).1)).map VTestItem.oid := List.mem_map_of_mem _ hv
    have hpos := List.one_le_count_iff.mpr hmem
    have hb := hbound v.oid
    by_cases hold : v.oid ∈ (selfAndDescendantsF st.items).map VTestItem.oid
    · obtain ⟨w, hw, hwo⟩ := List.mem_map.mp hold
      have := hlt w hw
      simp only at *
      omega
    · have h0 : ((selfAndDescendantsF st.items).map VTestItem.oid).count v.oid = 0 := by
        rw [List.count_eq_zero]
        exact hold
      have hnewpos : 1 ≤ ((selfAndDescendants (createTest d none st.reg).1).map
          VTestItem.oid).count v.oid := by omega
      have hmem2 := List.one_le_count_iff.mp hnewpos
      have := hrange v.oid hmem2
      simp only at *
      omega

theorem mapGet_mem {α : Type} (m : List (String × α)) (k : String) (v : α)
    (h : mapGet m k = some v) : (k, v) ∈ m := by
  induction m with
  | nil => rw [mapGet] at h; exact absurd h (by simp)
  | cons q rest ih =>
    obtain ⟨k', v'⟩ := q
    rw [mapGet] at h
    by_cases he : k' = k
    · rw [if_pos he] at h
      obtain rfl : v' = v := by simpa using h
      subst he
      exact List.mem_cons_self _ _
    · rw [if_neg he] at h
      exact List.mem_cons_of_mem _ (ih h)

theorem mem_mapSet {α : Type} (m : List (String × α)) (k : String) (v : α)
    (p : String × α) (h : p ∈ mapSet m k v) : p ∈ m ∨ p = (k, v) := by
  induction m with
  | nil =>
    rw [mapSet] at h
    simp only [List.mem_singleton] at h
    exact Or.inr h
  | cons q rest ih =>
    obtain ⟨k', v'⟩ := q
    rw [mapSet] at h
    by_cases he : k' = k
    · rw [if_pos he] at h
      rcases List.mem_cons.mp h with rfl | h2
      · exact Or.inr rfl
      · exact Or.inl (List.mem_cons_of_mem _ h2)
    · rw [if_neg he] at h
      rcases List.mem_cons.mp h with rfl | h2
      · exact Or.inl (List.mem_cons_self _ _)
      · rcases ih h2 with h3 | h3
        · exact Or.inl (List.mem_cons_of_mem _ h3)
        · exact Or.inr h3

theorem mem_mapDelete {α : Type} (m : List (String × α)) (k : String)
    (p : String × α) (h : p ∈ mapDelete m k) : p ∈ m := by
  induction m with
  | nil => rw [mapDelete] at h; exact absurd h (by simp)
  | cons q rest ih =>
    obtain ⟨k', v'⟩ := q
    rw [mapDelete] at h
    by_cases he : k' = k
    · rw [if_pos he] at h
      exact List.mem_cons_of_mem _ h
    · rw [if_neg he] at h
      rcases List.mem_cons.mp h with rfl | h2
      · exact List.mem_cons_self _ _
      · exact List.mem_cons_of_mem _ (ih h2)

theorem annCount_append (l1 l2 : List OutputEntry) (o : Nat) :
    annCount (l1 ++ l2) o = annCount l1 o + annCount l2 o := by
  rw [annCount, annCount, annCount, List.filter_append, List.length_append]

theorem annCount_no_announce (l : List OutputEntry) (o : Nat)
    (h : ∀ e ∈ l, isAnnounceB e = false) : annCount l o = 0 := by
  rw [annCount, List.length_eq_zero, List.filter_eq_nil]
  intro e he
  cases e with
  | stateLine o2 lvl sym c1 c2 lbl =>
    have hs := h _ he
    simp only [isAnnounceB] at hs
    simp [hs]
  | raw t t2 => simp

theorem annCount_map_announceEntry (items : List VTestItem) (chain : List Nat) (o : Nat) :
    annCount (chain.map (announceEntry items)) o = List.count o chain := by
  induction chain with
  | nil => rfl
  | cons c cs ih =>
    by_cases he : c = o
    · subst he
      rw [List.map_cons, annCount, List.filter_cons, if_pos (by simp [announceEntry]),
        List.length_cons]
      rw [annCount] at ih
      rw [ih, List.count_cons]
      simp
    · rw [List.map_cons, annCount, List.filter_cons, if_neg (by simp [announceEntry, he])]
      rw [annCount] at ih
      rw [ih, List.count_cons]
      simp [he, Ne.symm he]

theorem annCount_stateLine_ne (o o2 lvl : Nat) (sym : Char) (c1 c2 : ColorTag)
    (lbl : String) (h : sym ≠ '▼') :
    annCount [OutputEntry.stateLine o2 lvl sym c1 c2 lbl] o = 0 := by
  rw [annCount]
  simp [h]

theorem annCount_raw (s : String) (t : Option Nat) (o : Nat) :
    annCount [OutputEntry.raw s t] o = 0 := rfl

theorem raw_ext_no_announce (msg : Option String) (t : Option Nat) :
    ∀ e ∈ (match msg with
      | some m => [OutputEntry.raw (crlfNormalize m) t]
      | none => ([] : List OutputEntry)), isAnnounceB e = false := by
  intro e he
  cases msg with
  | none => exact absurd he (by simp)
  | some m =>
    simp only [List.mem_singleton] at he
    subst he
    rfl

theorem taskAnnOk_ext (data : TaskData) (hdata : TaskAnnOk data)
    (ext : List OutputEntry) (hext : ∀ e ∈ ext, isAnnounceB e = false)
    (cs : List RunCall) :
    TaskAnnOk ⟨{ output := data.task.output ++ ext, calls := cs },
      data.announcedTests⟩ := by
  intro o
  dsimp only
  rw [annCount_append, annCount_no_announce ext o hext]
  obtain ⟨ha, hb⟩ := hdata o
  exact ⟨by omega, fun hge => hb (by omega)⟩

theorem tasks_mapSet_preserved (m : List (String × TaskData)) (key : String)
    (nd : TaskData) (hnd : TaskAnnOk nd) :
    ∀ p ∈ mapSet m key nd, p ∈ m ∨ TaskAnnOk p.2 := by
  intro p hp
  rcases mem_mapSet m key nd p hp with h1 | h1
  · exact Or.inl h1
  · subst h1
    exact Or.inr hnd

theorem taskAnnOk_terminal (st : ConvState) (hok : StateOidsOk st) (data : TaskData)
    (hdata : TaskAnnOk data) (oid : Nat) (rest : List OutputEntry) (c : RunCall)
    (hrest : ∀ e ∈ rest, isAnnounceB e = false) :
    TaskAnnOk
      ⟨{ output := data.task.output
           ++ ((chainOf st.items data.announcedTests oid).filter
               (fun o => decide (childrenCount st.items o ≠ 0))).map (announceEntry st.items)
           ++ rest,
         calls := data.task.calls ++ [c] },
        (chainOf st.items data.announcedTests oid).foldl setAdd data.announcedTests⟩ := by
  intro o
  dsimp only
  have hnd := chainOf_nodup st hok data.announcedTests oid
  have hcnt : List.count o (chainOf st.items data.announcedTests oid) ≤ 1 :=
    List.nodup_iff_count_le_one.mp hnd o
  have hfil : List.count o ((chainOf st.items data.announcedTests oid).filter
        (fun o => decide (childrenCount st.items o ≠ 0)))
      ≤ List.count o (chainOf st.items data.announcedTests oid) :=
    (List.filter_sublist _).count_le o
  have hout : annCount (data.task.output
        ++ ((chainOf st.items data.announcedTests oid).filter
            (fun o => decide (childrenCount st.items o ≠ 0))).map (announceEntry st.items)
        ++ rest) o
      = annCount data.task.output o
        + List.count o ((chainOf st.items data.announcedTests oid).filter
            (fun o => decide (childrenCount st.items o ≠ 0))) := by
    rw [annCount_append, annCount_append, annCount_map_announceEntry,
      annCount_no_announce rest o hrest]
    omega
  obtain ⟨ha, hb⟩ := hdata o
  rw [hout, foldl_setAdd_mem]
  constructor
  · by_cases hin : o ∈ data.announcedTests
    · have hzero : List.count o (chainOf st.items data.announcedTests oid) = 0 := by
        rw [List.count_eq_zero]
        intro hmem
        exact chainOf_not_announced st.items data.announcedTests oid o hmem hin
      omega
    · have hz : annCount data.task.output o = 0 := by
        by_contra hc2
        exact hin (hb (by omega))
      omega
  · intro hge
    by_cases hin : 1 ≤ annCount data.task.output o
    · exact Or.inl (hb hin)
    · have h1 : 1 ≤ List.count o ((chainOf st.items data.announcedTests oid).filter
          (fun o => decide (childrenCount st.items o ≠ 0))) := by omega
      exact Or.inr (List.mem_of_mem_filter (List.one_le_count_iff.mp h1))

theorem onTestEvent_preserves_terminal (data : TaskData) (evt : TestEvent)
    (st : ConvState) (hok : StateOidsOk st) (hdata : TaskAnnOk data)
    (hterm : evt.state = .passed ∨ evt.state = .failed ∨ evt.state = .errored) :
    StateOidsOk (onTestEvent data evt st) ∧
    ∀ p ∈ (onTestEvent data evt st).tasksByRunId,
      p ∈ st.tasksByRunId ∨ TaskAnnOk p.2 := by
  cases hkn : mapGet st.reg.itemsById evt.testId with
  | none =>
    have heq : onTestEvent data evt st = st := by
      rcases hterm with h | h | h <;> simp [onTestEvent, h, hkn]
    rw [heq]
    exact ⟨hok, fun p hp => Or.inl hp⟩
  | some oid =>
    obtain ⟨rest, c, heq, hrest, hhead, hc⟩ := onTestEvent_terminal data evt st oid hterm hkn
    rw [heq]
    refine ⟨hok, ?_⟩
    exact tasks_mapSet_preserved _ _ _ (taskAnnOk_terminal st hok data hdata oid rest c hrest)

theorem onTestEvent_preserves (data : TaskData) (evt : TestEvent) (st : ConvState)
    (hok : StateOidsOk st) (hdata : TaskAnnOk data) :
    StateOidsOk (onTestEvent data evt st) ∧
    ∀ p ∈ (onTestEvent data evt st).tasksByRunId,
      p ∈ st.tasksByRunId ∨ TaskAnnOk p.2 := by
  obtain ⟨tst, state, rid, msg, decs⟩ := evt
  cases state with
  | passed =>
    exact onTestEvent_preserves_terminal data ⟨tst, .passed, rid, msg, decs⟩ st hok hdata
      (Or.inl rfl)
  | failed =>
    exact onTestEvent_preserves_terminal data ⟨tst, .failed, rid, msg, decs⟩ st hok hdata
      (Or.inr (Or.inl rfl))
  | errored =>
    exact onTestEvent_preserves_terminal data ⟨tst, .errored, rid, msg, decs⟩ st hok hdata
      (Or.inr (Or.inr rfl))
  | skipped =>
    cases tst with
    | inl s =>
      cases hkn : mapGet st.reg.itemsById s with
      | none =>
        have heq : onTestEvent data ⟨.inl s, .skipped, rid, msg, decs⟩ st = st := by
          simp [onTestEvent, TestEvent.testId, hkn]
        rw [heq]
        exact ⟨hok, fun p hp => Or.inl hp⟩
      | some oid =>
        have heq : onTestEvent data ⟨.inl s, .skipped, rid, msg, decs⟩ st
            = { st with tasksByRunId := (mapSet st.tasksByRunId (rid.getD "")
                ⟨{ output := data.task.output
                     ++ (OutputEntry.stateLine oid (((pathToF st.items oid).getD [oid]).length - 1)
                          '○' ColorTag.yellow ColorTag.dim
                          (((findItemF st.items oid).map
                            (fun (v : VTestItem) => v.fields.label)).getD "")
                       :: (match msg with
                           | some m => [OutputEntry.raw (crlfNormalize m) none]
                           | none => ([] : List OutputEntry))),
                   calls := data.task.calls ++ [RunCall.skipped oid] },
                  data.announcedTests⟩) } := by
          cases msg <;>
            simp [onTestEvent, TestEvent.testId, hkn, appendState_eq_line, List.append_assoc]
        rw [heq]
        refine ⟨hok, ?_⟩
        refine tasks_mapSet_preserved _ _ _ (taskAnnOk_ext data hdata _ ?_ _)
        intro e he
        rcases List.mem_cons.mp he with rfl | he2
        · rfl
        · exact raw_ext_no_announce msg none e he2
    | inr d =>
      cases hkn : mapGet st.reg.itemsById d.id with
      | none =>
        have heq : onTestEvent data ⟨.inr d, .skipped, rid, msg, decs⟩ st = st := by
          simp [onTestEvent, TestEvent.testId, hkn]
        rw [heq]
        exact ⟨hok, fun p hp => Or.inl hp⟩
      | some oid =>
        have heq : onTestEvent data ⟨.inr d, .skipped, rid, msg, decs⟩ st
            = { st with tasksByRunId := (mapSet st.tasksByRunId (rid.getD "")
                ⟨{ output := data.task.output
                     ++ (OutputEntry.stateLine oid (((pathToF st.items oid).getD [oid]).length - 1)
                          '○' ColorTag.yellow ColorTag.dim
                          (((findItemF st.items oid).map
                            (fun (v : VTestItem) => v.fields.label)).getD "")
                       :: (match msg with
                           | some m => [OutputEntry.raw (crlfNormalize m) none]
                           | none => ([] : List OutputEntry))),
                   calls := data.task.calls ++ [RunCall.skipped oid] },
                  data.announcedTests⟩) } := by
          cases msg <;>
            simp [onTestEvent, TestEvent.testId, hkn, appendState_eq_line, List.append_assoc]
        rw [heq]
        refine ⟨hok, ?_⟩
        refine tasks_mapSet_preserved _ _ _ (taskAnnOk_ext data hdata _ ?_ _)
        intro e he
        rcases List.mem_cons.mp he with rfl | he2
        · rfl
        · exact raw_ext_no_announce msg none e he2
  | running =>
    cases tst with
    | inl s =>
      cases hkn : mapGet st.reg.itemsById s with
      | none =>
        have heq : onTestEvent data ⟨.inl s, .running, rid, msg, decs⟩ st = st := by
          simp [onTestEvent, TestEvent.testId, hkn]
        rw [heq]
        exact ⟨hok, fun p hp => Or.inl hp⟩
      | some oid =>
        have heq : onTestEvent data ⟨.inl s, .running, rid, msg, decs⟩ st
            = { st with tasksByRunId := (mapSet st.tasksByRunId (rid.getD "")
                ⟨{ output := data.task.output
                     ++ (match msg with
                         | some m => [OutputEntry.raw (crlfNormalize m) none]
                         | none => ([] : List OutputEntry)),
                   calls := data.task.calls ++ [RunCall.started oid] },
                  data.announcedTests⟩) } := by
          cases msg <;> simp [onTestEvent, TestEvent.testId, hkn]
        rw [heq]
        refine ⟨hok, ?_⟩
        exact tasks_mapSet_preserved _ _ _
          (taskAnnOk_ext data hdata _ (raw_ext_no_announce msg none) _)
    | inr d =>
      cases hkn : mapGet st.reg.itemsById d.id with
      | some oid =>
        have heq : onTestEvent data ⟨.inr d, .running, rid, msg, decs⟩ st
            = { st with tasksByRunId := (mapSet st.tasksByRunId (rid.getD "")
                ⟨{ output := data.task.output
                     ++ (match msg with
                         | some m => [OutputEntry.raw (crlfNormalize m) none]
                         | none => ([] : List OutputEntry)),
                   calls := data.task.calls ++ [RunCall.started oid] },
                  data.announcedTests⟩) } := by
          cases msg <;> simp [onTestEvent, TestEvent.testId, hkn]
        rw [heq]
        refine ⟨hok, ?_⟩
        exact tasks_mapSet_preserved _ _ _
          (taskAnnOk_ext data hdata _ (raw_ext_no_announce msg none) _)
      | none =>
        cases hrs : mapGet st.runningSuiteByRunId (rid.getD "") with
        | none =>
          have heq : onTestEvent data ⟨.inr d, .running, rid, msg, decs⟩ st = st := by
            simp [onTestEvent, TestEvent.testId, hkn, hrs]
          rw [heq]
          exact ⟨hok, fun p hp => Or.inl hp⟩
        | some suiteOid =>
          cases hkn1 : mapGet (createTest d none st.reg).2.itemsById d.id with
          | none =>
            have heq : onTestEvent data ⟨.inr d, .running, rid, msg, decs⟩ st
                = { st with
                    items := addChildF st.items suiteOid (createTest d none st.reg).1,
                    reg := (createTest d none st.reg).2 } := by
              simp [onTestEvent, TestEvent.testId, hkn, hrs, hkn1]
            rw [heq]
            refine ⟨graft_preserves_ok st hok d suiteOid, ?_⟩
            exact fun p hp => Or.inl hp
          | some oid =>
            have heq : onTestEvent data ⟨.inr d, .running, rid, msg, decs⟩ st
                = { st with
                    items := addChildF st.items suiteOid (createTest d none st.reg).1,
                    reg := (createTest d none st.reg).2,
                    tasksByRunId := (mapSet st.tasksByRunId (rid.getD "")
                      ⟨{ output := data.task.output
                           ++ (match msg with
                               | some m => [OutputEntry.raw (crlfNormalize m) none]
                               | none => ([] : List OutputEntry)),
                         calls := data.task.calls ++ [RunCall.started oid] },
                        data.announcedTests⟩) } := by
              cases msg <;> simp [onTestEvent, TestEvent.testId, hkn, hrs, hkn1]
            rw [heq]
            refine ⟨graft_preserves_ok st hok d suiteOid, ?_⟩
            exact tasks_mapSet_preserved _ _ _
              (taskAnnOk_ext data hdata _ (raw_ext_no_announce msg none) _)

theorem onTestSuiteEvent_preserves (evt : TestSuiteEvent) (st : ConvState)
    (hok : StateOidsOk st) :
    StateOidsOk (onTestSuiteEvent evt st) ∧
    (onTestSuiteEvent evt st).tasksByRunId = st.tasksByRunId := by
  obtain ⟨ste, state, rid⟩ := evt
  cases state with
  | running =>
    cases ste with
    | inl s =>
      cases hkn : mapGet st.reg.itemsById s with
      | some oid =>
        have heq : onTestSuiteEvent ⟨.inl s, .running, rid⟩ st
            = { st with
                runningSuiteByRunId := mapSet st.runningSuiteByRunId (rid.getD "") oid } := by
          simp [onTestSuiteEvent, TestSuiteEvent.suiteId, hkn]
        rw [heq]
        exact ⟨hok, rfl⟩
      | none =>
        have heq : onTestSuiteEvent ⟨.inl s, .running, rid⟩ st = st := by
          simp [onTestSuiteEvent, TestSuiteEvent.suiteId, hkn]
        rw [heq]
        exact ⟨hok, rfl⟩
    | inr d =>
      cases hkn : mapGet st.reg.itemsById d.id with
      | some oid =>
        have heq : onTestSuiteEvent ⟨.inr d, .running, rid⟩ st
            = { st with
                runningSuiteByRunId := mapSet st.runningSuiteByRunId (rid.getD "") oid } := by
          simp [onTestSuiteEvent, TestSuiteEvent.suiteId, hkn]
        rw [heq]
        exact ⟨hok, rfl⟩
      | none =>
        cases hrs : mapGet st.runningSuiteByRunId (rid.getD "") with
        | none =>
          have heq : onTestSuiteEvent ⟨.inr d, .running, rid⟩ st = st := by
            simp [onTestSuiteEvent, TestSuiteEvent.suiteId, hkn, hrs]
          rw [heq]
          exact ⟨hok, rfl⟩
        | some suiteOid =>
          cases hkn1 : mapGet (createTest d none st.reg).2.itemsById d.id with
          | none =>
            have heq : onTestSuiteEvent ⟨.inr d, .running, rid⟩ st
                = { st with
                    items := addChildF st.items suiteOid (createTest d none st.reg).1,
                    reg := (createTest d none st.reg).2 } := by
              simp [onTestSuiteEvent, TestSuiteEvent.suiteId, hkn, hrs, hkn1]
            rw [heq]
            exact ⟨graft_preserves_ok st hok d suiteOid, rfl⟩
          | some oid =>
            have heq : onTestSuiteEvent ⟨.inr d, .running, rid⟩ st
                = { st with
                    items := addChildF st.items suiteOid (createTest d none st.reg).1,
                    reg := (createTest d none st.reg).2,
                    runningSuiteByRunId := mapSet st.runningSuiteByRunId (rid.getD "") oid
                  } := by
              simp [onTestSuiteEvent, TestSuiteEvent.suiteId, hkn, hrs, hkn1]
            rw [heq]
            exact ⟨graft_preserves_ok st hok d suiteOid, rfl⟩
  | completed =>
    cases hrs : mapGet st.runningSuiteByRunId (rid.getD "") with
    | none =>
      have heq : onTestSuiteEvent ⟨ste, .completed, rid⟩ st = st := by
        simp [onTestSuiteEvent, hrs]
      rw [heq]
      exact ⟨hok, rfl⟩
    | some oid =>
      by_cases hid : ((findItemF st.items oid).map (fun (v : VTestItem) => v.fields.id)).getD ""
          = TestSuiteEvent.suiteId ⟨ste, .completed, rid⟩
      · cases hp : parentOfF st.items oid with
        | some par =>
          have heq : onTestSuiteEvent ⟨ste, .completed, rid⟩ st
              = { st with
                  runningSuiteByRunId := mapSet st.runningSuiteByRunId (rid.getD "") par } := by
            simp only [TestSuiteEvent.suiteId] at hid
            simp [onTestSuiteEvent, TestSuiteEvent.suiteId, hrs, hid, hp]
          rw [heq]
          exact ⟨hok, rfl⟩
        | none =>
          have heq : onTestSuiteEvent ⟨ste, .completed, rid⟩ st
              = { st with
                  runningSuiteByRunId := mapDelete st.runningSuiteByRunId (rid.getD "") } := by
            simp only [TestSuiteEvent.suiteId] at hid
            simp [onTestSuiteEvent, TestSuiteEvent.suiteId, hrs, hid, hp]
          rw [heq]
          exact ⟨hok, rfl⟩
      · have heq : onTestSuiteEvent ⟨ste, .completed, rid⟩ st = st := by
          simp only [TestSuiteEvent.suiteId] at hid
          simp [onTestSuiteEvent, TestSuiteEvent.suiteId, hrs, hid]
        rw [heq]
        exact ⟨hok, rfl⟩

theorem handleTestStates_preserves (evt : TestStateEvent) (st : ConvState)
    (hok : StateOidsOk st) (hann : TasksAnnounceOk st) :
    StateOidsOk (handleTestStates evt st) ∧ TasksAnnounceOk (handleTestStates evt st) := by
  cases evt with
  | started r =>
    have heq : handleTestStates (.started r) st = st := by
      cases hget : mapGet st.tasksByRunId (r.getD "") <;>
        simp [handleTestStates, TestStateEvent.testRunId, hget]
    rw [heq]
    exact ⟨hok, hann⟩
  | finished r =>
    cases hget : mapGet st.tasksByRunId (r.getD "") with
    | none =>
      have heq : handleTestStates (.finished r) st = st := by
        simp [handleTestStates, TestStateEvent.testRunId, hget]
      rw [heq]
      exact ⟨hok, hann⟩
    | some data =>
      have heq : handleTestStates (.finished r) st
          = { st with tasksByRunId := mapDelete st.tasksByRunId (r.getD "") } := by
        simp [handleTestStates, TestStateEvent.testRunId, hget]
      rw [heq]
      refine ⟨hok, ?_⟩
      intro p hp
      exact hann p (mem_mapDelete _ _ p hp)
  | test e =>
    cases hget : mapGet st.tasksByRunId (e.testRunId.getD "") with
    | none =>
      have heq : handleTestStates (.test e) st = st := by
        simp [handleTestStates, TestStateEvent.testRunId, hget]
      rw [heq]
      exact ⟨hok, hann⟩
    | some data =>
      have hdata : TaskAnnOk data := hann (e.testRunId.getD "", data) (mapGet_mem _ _ _ hget)
      have heq : handleTestStates (.test e) st = onTestEvent data e st := by
        simp [handleTestStates, TestStateEvent.testRunId, hget]
      rw [heq]
      obtain ⟨h1, h2⟩ := onTestEvent_preserves data e st hok hdata
      refine ⟨h1, ?_⟩
      intro p hp
      rcases h2 p hp with hm | hta
      · exact hann p hm
      · exact hta
  | suite e =>
    cases hget : mapGet st.tasksByRunId (e.testRunId.getD "") with
    | none =>
      have heq : handleTestStates (.suite e) st = st := by
        simp [handleTestStates, TestStateEvent.testRunId, hget]
      rw [heq]
      exact ⟨hok, hann⟩
    | some data =>
      have heq : handleTestStates (.suite e) st = onTestSuiteEvent e st := by
        simp [handleTestStates, TestStateEvent.testRunId, hget]
      rw [heq]
      obtain ⟨h1, h2⟩ := onTestSuiteEvent_preserves e st hok
      refine ⟨h1, ?_⟩
      intro p hp
      rw [h2] at hp
      exact hann p hp

theorem processEvents_preserves (evts : List TestStateEvent) (st : ConvState)
    (hok : StateOidsOk st) (hann : TasksAnnounceOk st) :
    StateOidsOk (processEvents evts st) ∧ TasksAnnounceOk (processEvents evts st) := by
  induction evts generalizing st with
  | nil => exact ⟨hok, hann⟩
  | cons e es ih =>
    have hstep := handleTestStates_preserves e st hok hann
    have heq : processEvents (e :: es) st = processEvents es (handleTestStates e st) := by
      rw [processEvents, processEvents, List.foldl_cons]
    rw [heq]
    exact ih _ hstep.1 hstep.2

/-- C6 (amended): ancestor announcement is at most-once per run session and
root-to-leaf ordered, but it is triggered by terminal state reports
(`passed` / `failed` / `errored`), not by the leaf's first state report.
First conjunct: across any stream of state events from a well-formed state,
every run session's output holds at most one `▼` announcement line per
item.  Second conjunct: a terminal event for a known test appends to the
session's task, in order, the announcement lines of the not-yet-announced
suffix of the leaf's root path (root first, suites with children only),
followed by output that contains no announcement line and starts with the
leaf's own state line, and records the leaf's result call; all chain items
are added to the session's announced set. -/
theorem suite_announced_once_before_leaf
    (evts : List TestStateEvent) (st : ConvState)
    (hok : StateOidsOk st) (hann : TasksAnnounceOk st)
    (data : TaskData) (evt : TestEvent) (st2 : ConvState) (oid : Nat)
    (hok2 : StateOidsOk st2)
    (hterm : evt.state = .passed ∨ evt.state = .failed ∨ evt.state = .errored)
    (hknown : mapGet st2.reg.itemsById evt.testId = some oid) :
    TasksAnnounceOk (processEvents evts st) ∧
    ∃ (k : Nat) (rest : List OutputEntry) (c : RunCall) (chain : List Nat),
      chain = ((pathToF st2.items oid).getD [oid]).drop k ∧
      (∀ o ∈ chain, o ∉ data.announcedTests) ∧
      chain.Nodup ∧
      onTestEvent data evt st2
        = { st2 with tasksByRunId := (mapSet st2.tasksByRunId (evt.testRunId.getD "")
            ⟨{ output := data.task.output
                ++ (chain.filter
                    (fun o => decide (childrenCount st2.items o ≠ 0))).map (announceEntry st2.items)
                ++ rest,
               calls := data.task.calls ++ [c] },
              chain.foldl setAdd data.announcedTests⟩) } ∧
      (∀ e ∈ rest, isAnnounceB e = false) ∧
      (∃ sym symc txtc lbl, sym ≠ '▼' ∧
        rest.head? = some (.stateLine oid
          (((pathToF st2.items oid).getD [oid]).length - 1) sym symc txtc lbl)) ∧
      (c = RunCall.passed oid ∨ (∃ msgs, c = RunCall.failed oid msgs) ∨
        (∃ msgs, c = RunCall.errored oid msgs)) := by
  refine ⟨(processEvents_preserves evts st hok hann).2, ?_⟩
  obtain ⟨rest, c, heq, hrest, hhead, hc⟩ := onTestEvent_terminal data evt st2 oid hterm hknown
  obtain ⟨k, hk⟩ := chainOf_suffix st2.items data.announcedTests oid
  exact ⟨k, rest, c, chainOf st2.items data.announcedTests oid, hk,
    chainOf_not_announced st2.items data.announcedTests oid,
    chainOf_nodup st2 hok2 data.announcedTests oid, heq, hrest, hhead, hc⟩

/-- Witness for C6 at concrete inputs: the empty event stream on the empty
converter state, and a `passed` event for the registered test `a`. -/
theorem suite_announced_once_before_leaf_witness :
    StateOidsOk ⟨[VTestItem.mk ⟨0, "a", "A", none, none, none, none, false⟩ []], "",
      none, ⟨1, [("a", 0)]⟩, [], []⟩ ∧
    (TasksAnnounceOk (processEvents [] ⟨[], "", none, ⟨0, []⟩, [], []⟩) ∧
     ∃ (k : Nat) (rest : List OutputEntry) (c : RunCall) (chain : List Nat),
      chain = ((pathToF
          (⟨[VTestItem.mk ⟨0, "a", "A", none, none, none, none, false⟩ []], "",
            none, ⟨1, [("a", 0)]⟩, [], []⟩ : ConvState).items 0).getD [0]).drop k ∧
      (∀ o ∈ chain, o ∉ (⟨⟨[], []⟩, []⟩ : TaskData).announcedTests) ∧
      chain.Nodup ∧
      onTestEvent ⟨⟨[], []⟩, []⟩ ⟨Sum.inl "a", .passed, none, none, none⟩
          ⟨[VTestItem.mk ⟨0, "a", "A", none, none, none, none, false⟩ []], "",
            none, ⟨1, [("a", 0)]⟩, [], []⟩
        = { (⟨[VTestItem.mk ⟨0, "a", "A", none, none, none, none, false⟩ []], "",
              none, ⟨1, [("a", 0)]⟩, [], []⟩ : ConvState) with
            tasksByRunId := (mapSet
              (⟨[VTestItem.mk ⟨0, "a", "A", none, none, none, none, false⟩ []], "",
                none, ⟨1, [("a", 0)]⟩, [], []⟩ : ConvState).tasksByRunId
              ((⟨Sum.inl "a", .passed, none, none, none⟩ : TestEvent).testRunId.getD "")
            ⟨{ output := (⟨⟨[], []⟩, []⟩ : TaskData).task.output
                ++ (chain.filter
                    (fun o => decide (childrenCount
                      (⟨[VTestItem.mk ⟨0, "a", "A", none, none, none, none, false⟩ []], "",
                        none, ⟨1, [("a", 0)]⟩, [], []⟩ : ConvState).items o ≠ 0))).map
                  (announceEntry
                    (⟨[VTestItem.mk ⟨0, "a", "A", none, none, none, none, false⟩ []], "",
                      none, ⟨1, [("a", 0)]⟩, [], []⟩ : ConvState).items)
                ++ rest,
               calls := (⟨⟨[], []⟩, []⟩ : TaskData).task.calls ++ [c] },
              chain.foldl setAdd (⟨⟨[], []⟩, []⟩ : TaskData).announcedTests⟩) } ∧
      (∀ e ∈ rest, isAnnounceB e = false) ∧
      (∃ sym symc txtc lbl, sym ≠ '▼' ∧
        rest.head? = some (.stateLine 0
          (((pathToF
            (⟨[VTestItem.mk ⟨0, "a", "A", none, none, none, none, false⟩ []], "",
              none, ⟨1, [("a", 0)]⟩, [], []⟩ : ConvState).items 0).getD [0]).length - 1)
          sym symc txtc lbl)) ∧
      (c = RunCall.passed 0 ∨ (∃ msgs, c = RunCall.failed 0 msgs) ∨
        (∃ msgs, c = RunCall.errored 0 msgs))) := by
  constructor
  · refine ⟨?_, ?_⟩ <;>
      simp [selfAndDescendantsF, selfAndDescendants, VTestItem.oid, VTestItem.fields]
  · exact suite_announced_once_before_leaf [] ⟨[], "", none, ⟨0, []⟩, [], []⟩
      (by refine ⟨?_, ?_⟩ <;> simp [selfAndDescendantsF])
      (by intro p hp; exact absurd hp (by simp))
      ⟨⟨[], []⟩, []⟩ ⟨Sum.inl "a", .passed, none, none, none⟩
      ⟨[VTestItem.mk ⟨0, "a", "A", none, none, none, none, false⟩ []], "",
        none, ⟨1, [("a", 0)]⟩, [], []⟩ 0
      (by refine ⟨?_, ?_⟩ <;>
        simp [selfAndDescendantsF, selfAndDescendants, VTestItem.oid, VTestItem.fields])
      (Or.inl rfl)
      (by simp [mapGet, TestEvent.testId])

/-- C6 counterexample: the first state report for leaf `a` (child of the
suite `s`, oid 0) is a `running` event, and the converter announces none of
the leaf's ancestors on it — the session's output stays free of `▼` lines
and the announced set stays empty, where the claim requires the
not-yet-announced ancestors to be announced on the leaf's first state
report. -/
theorem running_first_report_announces_nothing :
    ∃ d : TaskData,
      mapGet (handleTestStates
          (TestStateEvent.test ⟨Sum.inl "a", TestEvtState.running, some "r", none, none⟩)
          ⟨[VTestItem.mk ⟨0, "s", "S", none, none, none, none, true⟩
              [VTestItem.mk ⟨1, "a", "A", none, none, none, none, false⟩ []]],
            "", none, ⟨2, [("s", 0), ("a", 1)]⟩,
            [("r", ⟨⟨[], []⟩, []⟩)], []⟩).tasksByRunId "r"
        = some d ∧ annCount d.task.output 0 = 0 ∧ d.announcedTests = [] := by
  refine ⟨⟨⟨[], [RunCall.started 1]⟩, []⟩, ?_, rfl, rfl⟩
  simp [handleTestStates, TestStateEvent.testRunId, onTestEvent, TestEvent.testId,
    mapGet, mapSet]

end Conv

namespace Conv.Gen

theorem childrenGet_eq_none (l : List GTestItem) (i : String)
    (h : ∀ c ∈ l, GTestItem.id c ≠ i) : childrenGet l i = none := by
  induction l with
  | nil => rfl
  | cons c rest ih =>
    rw [childrenGet, if_neg (h c (List.mem_cons_self _ _))]
    exact ih (fun c2 hc2 => h c2 (List.mem_cons_of_mem _ hc2))

theorem childrenGet_append_none (l1 l2 : List GTestItem) (i : String)
    (h : childrenGet l1 i = none) : childrenGet (l1 ++ l2) i = childrenGet l2 i := by
  induction l1 with
  | nil => rfl
  | cons c rest ih =>
    rw [childrenGet] at h
    by_cases hc : c.id = i
    · rw [if_pos hc] at h
      exact absurd h (by simp)
    · rw [if_neg hc] at h
      rw [List.cons_append, childrenGet, if_neg hc]
      exact ih h

theorem pruneGo_fst (cur : List GTestItem) (gen : Nat) (m : List (String × Nat)) :
    (pruneGo cur gen m).1 = cur.filter (fun v => decide (GTestItem.generation v = gen)) := by
  induction cur generalizing m with
  | nil => rfl
  | cons c rest ih =>
    rw [pruneGo, List.filter_cons]
    by_cases hc : c.generation = gen
    · rw [if_pos hc, if_pos (by simpa using hc)]
      simp only
      rw [ih]
    · rw [if_neg hc, if_neg (by simpa using hc)]
      exact ih _

theorem pruneGo_keep (cur : List GTestItem) (gen : Nat) (m : List (String × Nat))
    (h : ∀ v ∈ cur, GTestItem.generation v = gen) : pruneGo cur gen m = (cur, m) := by
  induction cur generalizing m with
  | nil => rfl
  | cons c rest ih =>
    rw [pruneGo, if_pos (h c (List.mem_cons_self _ _)),
      ih m (fun v hv => h v (List.mem_cons_of_mem _ hv))]

theorem mirrorF_gens (gen : Nat) (descs : List TestItemInfo) (ts : List GTestItem)
    (h : MirrorF gen descs ts) : ∀ v ∈ ts, GTestItem.generation v = gen := by
  induction descs generalizing ts with
  | nil =>
    cases ts with
    | nil => simp
    | cons v vs => rw [MirrorF] at h; exact absurd h (by simp)
  | cons d ds ih =>
    cases ts with
    | nil => rw [MirrorF] at h; exact absurd h (by simp)
    | cons v vs =>
      rw [MirrorF] at h
      rw [MirrorI] at h
      intro w hw
      rcases List.mem_cons.mp hw with rfl | hw2
      · exact h.1.2.1
      · exact ih vs h.2 w hw2

theorem mirrorF_ids (gen : Nat) (descs : List TestItemInfo) (ts : List GTestItem)
    (h : MirrorF gen descs ts) :
    ts.map GTestItem.id = descs.map TestItemInfo.id := by
  induction descs generalizing ts with
  | nil =>
    cases ts with
    | nil => rfl
    | cons v vs => rw [MirrorF] at h; exact absurd h (by simp)
  | cons d ds ih =>
    cases ts with
    | nil => rw [MirrorF] at h; exact absurd h (by simp)
    | cons v vs =>
      rw [MirrorF] at h
      rw [MirrorI] at h
      simp only [List.map_cons]
      rw [h.1.1, ih vs h.2]

theorem forestSub_ids (l1 l2 : List TestItemInfo) (h : ForestSub l2 l1) :
    ∀ i ∈ l2.map TestItemInfo.id, i ∈ l1.map TestItemInfo.id := by
  induction l1 generalizing l2 with
  | nil =>
    cases l2 with
    | nil => simp
    | cons d ds => rw [ForestSub] at h; exact absurd h (by simp)
  | cons e es ih =>
    cases l2 with
    | nil => simp
    | cons d ds =>
      rw [ForestSub] at h
      rcases h with ⟨hde, hds⟩ | hdrop
      · rw [DescSub] at hde
        intro i hi
        simp only [List.map_cons, List.mem_cons] at hi ⊢
        rcases hi with rfl | hi2
        · exact Or.inl hde.1
        · exact Or.inr (by simpa using ih ds hds i (by simpa using hi2))
      · intro i hi
        simp only [List.map_cons, List.mem_cons]
        exact Or.inr (ih (d :: ds) hdrop i hi)

theorem forestSub_nodup (l1 l2 : List TestItemInfo) (h : ForestSub l2 l1)
    (hnd : (l1.map TestItemInfo.id).Nodup) : (l2.map TestItemInfo.id).Nodup := by
  induction l1 generalizing l2 with
  | nil =>
    cases l2 with
    | nil => simp
    | cons d ds => rw [ForestSub] at h; exact absurd h (by simp)
  | cons e es ih =>
    cases l2 with
    | nil => simp
    | cons d ds =>
      rw [ForestSub] at h
      simp only [List.map_cons, List.nodup_cons] at hnd
      rcases h with ⟨hde, hds⟩ | hdrop
      · rw [DescSub] at hde
        simp only [List.map_cons, List.nodup_cons]
        refine ⟨?_, ih ds hds hnd.2⟩
        intro hmem
        exact hnd.1 (by
          have := forestSub_ids es ds hds (TestItemInfo.id d) hmem
          rwa [hde.1] at this)
      · have := ih (d :: ds) hdrop hnd.2
        exact this

theorem nodupIdsF_tail (e : TestItemInfo) (es : List TestItemInfo)
    (h : NodupIdsF (e :: es)) : NodupIdsF es := by
  rw [NodupIdsF] at h ⊢
  rw [NodupIdsAll] at h
  simp only [List.map_cons, List.nodup_cons] at h
  exact ⟨h.1.2, h.2.2⟩

theorem nodupIdsF_head (e : TestItemInfo) (es : List TestItemInfo)
    (h : NodupIdsF (e :: es)) : NodupIdsF e.childList := by
  rw [NodupIdsF] at h
  rw [NodupIdsAll] at h
  exact h.2.1

theorem nodupIdsF_head_notmem (e : TestItemInfo) (es : List TestItemInfo)
    (h : NodupIdsF (e :: es)) : TestItemInfo.id e ∉ es.map TestItemInfo.id := by
  rw [NodupIdsF] at h
  simp only [List.map_cons, List.nodup_cons] at h
  exact h.1.1

theorem addItem_skip_head (item : TestItemInfo) (gen : Nat) (pu : Option Uri)
    (hd : Bool) (t : GTestItem) (ts : List GTestItem) (reg : GRegistry)
    (h : GTestItem.id t ≠ TestItemInfo.id item) :
    addItem item gen pu hd (t :: ts) reg
      = (t :: (addItem item gen pu hd ts reg).1, (addItem item gen pu hd ts reg).2) := by
  rw [addItem, addItem]
  rw [childrenGet, if_neg h]
  cases hres : childrenGet ts item.id with
  | some c =>
    simp only
    rw [childrenReplace, if_neg h]
  | none =>
    simp only [List.cons_append]

theorem addAll_skip_head (descs : List TestItemInfo) (gen : Nat) (pu : Option Uri)
    (hd : Bool) (t : GTestItem) (ts : List GTestItem) (reg : GRegistry)
    (h : ∀ d ∈ descs, GTestItem.id t ≠ TestItemInfo.id d) :
    addAll descs gen pu hd (t :: ts) reg
      = (t :: (addAll descs gen pu hd ts reg).1, (addAll descs gen pu hd ts reg).2) := by
  induction descs generalizing ts reg with
  | nil => rw [addAll, addAll]
  | cons d ds ih =>
    rw [addAll, addAll]
    rw [addItem_skip_head d gen pu hd t ts reg (h d (List.mem_cons_self _ _))]
    simp only
    exact ih _ _ (fun d2 hd2 => h d2 (List.mem_cons_of_mem _ hd2))

theorem build_mirror (n : Nat) :
    (∀ (item : TestItemInfo) (gen : Nat) (pu : Option Uri) (hd : Bool)
        (siblings : List GTestItem) (reg : GRegistry), sizeOf item ≤ n →
      NodupIdsF item.childList → childrenGet siblings item.id = none →
      ∃ t reg2, addItem item gen pu hd siblings reg = (siblings ++ [t], reg2) ∧
        MirrorI gen item t) ∧
    (∀ (descs : List TestItemInfo) (gen : Nat) (pu : Option Uri) (hd : Bool)
        (siblings : List GTestItem) (reg : GRegistry), sizeOf descs ≤ n →
      NodupIdsF descs → (∀ d ∈ descs, childrenGet siblings (TestItemInfo.id d) = none) →
      ∃ ts reg2, addAll descs gen pu hd siblings reg = (siblings ++ ts, reg2) ∧
        MirrorF gen descs ts) ∧
    (∀ (descs : List TestItemInfo) (gen : Nat) (pu : Option Uri) (hd : Bool)
        (reg : GRegistry), sizeOf descs ≤ n →
      NodupIdsF descs →
      ∃ ts reg2, syncItemChildren descs gen pu hd [] reg = (ts, reg2) ∧
        MirrorF gen descs ts) := by
  induction n using Nat.strong_induction_on with
  | _ n ih =>
    have hA : ∀ (item : TestItemInfo) (gen : Nat) (pu : Option Uri) (hd : Bool)
        (siblings : List GTestItem) (reg : GRegistry), sizeOf item ≤ n →
        NodupIdsF item.childList → childrenGet siblings item.id = none →
        ∃ t reg2, addItem item gen pu hd siblings reg = (siblings ++ [t], reg2) ∧
          MirrorI gen item t := by
      intro item gen pu hd siblings reg hsz hnd hmiss
      have hlt := sizeOf_childList_lt item
      have hn : 1 ≤ n := by omega
      obtain ⟨cs, reg2, hsync, hmir⟩ := (ih (n - 1) (by omega)).2.2 item.childList gen
        (match item.info.file with
          | some f => some (fileToUri f)
          | none => pu) hd
        ⟨reg.nextOid + 1, mapSet reg.itemsById item.id reg.nextOid⟩ (by omega) hnd
      refine ⟨GTestItem.mk
        { oid := reg.nextOid, id := item.id, label := item.info.label,
          uri := (match item.info.file with
            | some f => some (fileToUri f)
            | none => pu),
          description := item.info.description,
          range := (match item.info.line with
            | some line => some (line, 0, line + 1, 0)
            | none => none),
          debuggable := hd,
          error := if item.info.errored then item.info.message else none,
          generation := gen } cs, reg2, ?_, ?_⟩
      · rw [addItem, hmiss]
        simp only [hsync]
      · rw [MirrorI]
        exact ⟨rfl, rfl, hmir⟩
    have hB : ∀ (descs : List TestItemInfo) (gen : Nat) (pu : Option Uri) (hd : Bool)
        (siblings : List GTestItem) (reg : GRegistry), sizeOf descs ≤ n →
        NodupIdsF descs → (∀ d ∈ descs, childrenGet siblings (TestItemInfo.id d) = none) →
        ∃ ts reg2, addAll descs gen pu hd siblings reg = (siblings ++ ts, reg2) ∧
          MirrorF gen descs ts := by
      intro descs
      induction descs with
      | nil =>
        intro gen pu hd siblings reg hsz hnd hmiss
        refine ⟨[], reg, ?_, ?_⟩
        · rw [addAll]
          simp
        · rw [MirrorF]
          trivial
      | cons d ds ihd =>
        intro gen pu hd siblings reg hsz hnd hmiss
        have hszd : sizeOf d ≤ n := by
          simp only [List.cons.sizeOf_spec] at hsz
          omega
        have hszds : sizeOf ds ≤ n := by
          simp only [List.cons.sizeOf_spec] at hsz
          omega
        obtain ⟨t, reg2, haddeq, hmirI⟩ := hA d gen pu hd siblings reg hszd
          (nodupIdsF_head d ds hnd) (hmiss d (List.mem_cons_self _ _))
        have htid : GTestItem.id t = TestItemInfo.id d := by
          rw [MirrorI] at hmirI
          exact hmirI.1
        have hmiss2 : ∀ d2 ∈ ds, childrenGet (siblings ++ [t]) (TestItemInfo.id d2) = none := by
          intro d2 hd2
          rw [childrenGet_append_none _ _ _ (hmiss d2 (List.mem_cons_of_mem _ hd2))]
          refine childrenGet_eq_none _ _ ?_
          intro c hc
          rcases List.mem_singleton.mp hc with rfl
          rw [htid]
          intro hcontra
          exact nodupIdsF_head_notmem d ds hnd
            (by rw [hcontra]; exact List.mem_map_of_mem _ hd2)
        obtain ⟨ts, reg3, halleq, hmirF⟩ := ihd gen pu hd (siblings ++ [t]) reg2 hszds
          (nodupIdsF_tail d ds hnd) hmiss2
        refine ⟨t :: ts, reg3, ?_, ?_⟩
        · rw [addAll, haddeq]
          simp only [halleq, List.append_assoc, List.singleton_append]
        · rw [MirrorF]
          exact ⟨hmirI, hmirF⟩
    refine ⟨hA, hB, ?_⟩
    intro descs gen pu hd reg hsz hnd
    obtain ⟨ts, reg2, halleq, hmirF⟩ := hB descs gen pu hd [] reg hsz hnd
      (fun d hd2 => rfl)
    simp only [List.nil_append] at halleq
    have hkeep := pruneGo_keep ts gen reg2.itemsById (mirrorF_gens gen descs ts hmirF)
    refine ⟨ts, { reg2 with itemsById := reg2.itemsById }, ?_, hmirF⟩
    rw [syncItemChildren, halleq]
    simp only [hkeep]

theorem sync_preserves (n : Nat) :
    (∀ (d2 d1 : TestItemInfo) (gen2 gen1 : Nat) (pu : Option Uri) (hd : Bool)
        (old : GTestItem) (rest : List GTestItem) (reg : GRegistry), sizeOf d1 ≤ n →
      DescSub d2 d1 → MirrorI gen1 d1 old → NodupIdsF d1.childList → gen2 ≠ gen1 →
      ∃ new reg2, addItem d2 gen2 pu hd (old :: rest) reg = (new :: rest, reg2) ∧
        SyncedI gen2 d2 old new ∧ GTestItem.generation new = gen2 ∧
        GTestItem.id new = GTestItem.id old) ∧
    (∀ (descs2 descs1 : List TestItemInfo) (gen2 gen1 : Nat) (pu : Option Uri) (hd : Bool)
        (ts : List GTestItem) (reg : GRegistry), sizeOf descs1 ≤ n →
      ForestSub descs2 descs1 → MirrorF gen1 descs1 ts → NodupIdsF descs1 → gen2 ≠ gen1 →
      ∃ ts1 reg2, addAll descs2 gen2 pu hd ts reg = (ts1, reg2) ∧
        SyncedF gen2 descs2 ts
          (ts1.filter (fun v => decide (GTestItem.generation v = gen2)))) := by
  induction n using Nat.strong_induction_on with
  | _ n ih =>
    constructor
    · intro d2 d1 gen2 gen1 pu hd old rest reg hsz hsub hmir hnd hg
      rw [DescSub] at hsub
      rw [MirrorI] at hmir
      have hlt := sizeOf_childList_lt d1
      have hn : 1 ≤ n := by omega
      have hoid : GTestItem.id old = TestItemInfo.id d2 := by
        rw [hmir.1, hsub.1]
      obtain ⟨cs1, regc, hall, hsyn⟩ := (ih (n - 1) (by omega)).2 d2.childList d1.childList
        gen2 gen1 old.fields.uri hd old.children reg (by omega) hsub.2 hmir.2.2 hnd hg
      have hget : childrenGet (old :: rest) d2.id = some old := by
        rw [childrenGet, if_pos hoid]
      refine ⟨GTestItem.mk
        { old.fields with
            generation := gen2,
            description := d2.info.description,
            range := (match d2.info.line with
              | some line => some (line, 0, line + 1, 0)
              | none => old.fields.range),
            debuggable := hd,
            error := if d2.info.errored then d2.info.message else old.fields.error }
        (cs1.filter (fun v => decide (GTestItem.generation v = gen2))),
        { regc with itemsById := (pruneGo cs1 gen2 regc.itemsById).2 }, ?_, ?_, ?_, ?_⟩
      · rw [addItem, hget]
        have hsync2 : syncItemChildren d2.childList gen2 old.fields.uri hd old.children reg
            = (cs1.filter (fun v => decide (GTestItem.generation v = gen2)),
               { regc with itemsById := (pruneGo cs1 gen2 regc.itemsById).2 }) := by
          rw [syncItemChildren, hall]
          simp [pruneGo_fst]
        simp only [hsync2]
        rw [childrenReplace, if_pos hoid]
      · rw [SyncedI]
        refine ⟨rfl, rfl, rfl, ?_⟩
        simpa [GTestItem.children] using hsyn
      · rfl
      · rfl
    · intro descs2 descs1 gen2 gen1 pu hd ts reg hsz hsub hmir hnd hg
      cases descs1 with
      | nil =>
        cases descs2 with
        | nil =>
          cases ts with
          | nil =>
            refine ⟨[], reg, ?_, ?_⟩
            · rw [addAll]
            · rw [SyncedF]
              rfl
          | cons v vs =>
            rw [MirrorF] at hmir
            exact absurd hmir (by simp)
        | cons d ds =>
          rw [ForestSub] at hsub
          exact absurd hsub (by simp)
      | cons e es =>
        cases ts with
        | nil =>
          rw [MirrorF] at hmir
          exact absurd hmir (by simp)
        | cons t ts2 =>
          rw [MirrorF] at hmir
          have hszE : sizeOf e ≤ n - 1 := by
            simp only [List.cons.sizeOf_spec] at hsz
            omega
          have hszEs : sizeOf es ≤ n - 1 := by
            simp only [List.cons.sizeOf_spec] at hsz
            omega
          have hn : 1 ≤ n := by
            simp only [List.cons.sizeOf_spec] at hsz
            have := sizeOf_childList_lt e
            omega
          have htid : GTestItem.id t = TestItemInfo.id e := by
            have h1 := hmir.1
            rw [MirrorI] at h1
            exact h1.1
          have htgen : GTestItem.generation t = gen1 := by
            have h1 := hmir.1
            rw [MirrorI] at h1
            exact h1.2.1
          cases descs2 with
          | nil =>
            refine ⟨t :: ts2, reg, ?_, ?_⟩
            · rw [addAll]
            · have hall : ∀ v ∈ t :: ts2, GTestItem.generation v = gen1 := by
                intro v hv
                rcases List.mem_cons.mp hv with rfl | hv2
                · exact htgen
                · exact mirrorF_gens gen1 es ts2 hmir.2 v hv2
              have hfil : (t :: ts2).filter
                  (fun v => decide (GTestItem.generation v = gen2)) = [] := by
                rw [List.filter_eq_nil]
                intro v hv
                simp [hall v hv, Ne.symm hg]
              rw [hfil, SyncedF]
          | cons d ds =>
            rw [ForestSub] at hsub
            rcases hsub with ⟨hde, hds⟩ | hdrop
            · obtain ⟨new, reg2, haddeq, hsynI, hngen, hnid⟩ :=
                (ih (n - 1) (by omega)).1 d e gen2 gen1 pu hd t ts2 reg hszE hde hmir.1
                  (nodupIdsF_head e es hnd) hg
              have hskip : ∀ d3 ∈ ds, GTestItem.id new ≠ TestItemInfo.id d3 := by
                intro d3 hd3
                rw [hnid, htid]
                intro hcontra
                refine nodupIdsF_head_notmem e es hnd ?_
                rw [hcontra]
                exact forestSub_ids es ds hds _ (List.mem_map_of_mem _ hd3)
              obtain ⟨tail1, reg3, htaileq, hsynF⟩ := (ih (n - 1) (by omega)).2 ds es gen2
                gen1 pu hd ts2 reg2 hszEs hds hmir.2 (nodupIdsF_tail e es hnd) hg
              refine ⟨new :: tail1, reg3, ?_, ?_⟩
              · rw [addAll, haddeq]
                simp only
                rw [addAll_skip_head ds gen2 pu hd new ts2 reg2 hskip, htaileq]
              · rw [List.filter_cons, if_pos (by simpa using hngen)]
                rw [SyncedF]
                refine Or.inl ⟨?_, new, tail1.filter
                  (fun v => decide (GTestItem.generation v = gen2)), rfl, hsynI, hsynF⟩
                rw [htid] at hnid
                rw [DescSub] at hde
                rw [hde.1, ← htid]
            · have hskip : ∀ d3 ∈ d :: ds, GTestItem.id t ≠ TestItemInfo.id d3 := by
                intro d3 hd3
                rw [htid]
                intro hcontra
                refine nodupIdsF_head_notmem e es hnd ?_
                rw [hcontra]
                exact forestSub_ids es (d :: ds) hdrop _ (List.mem_map_of_mem _ hd3)
              obtain ⟨tail1, reg3, htaileq, hsynF⟩ := (ih (n - 1) (by omega)).2 (d :: ds) es
                gen2 gen1 pu hd ts2 reg hszEs hdrop hmir.2 (nodupIdsF_tail e es hnd) hg
              refine ⟨t :: tail1, reg3, ?_, ?_⟩
              · rw [addAll_skip_head (d :: ds) gen2 pu hd t ts2 reg hskip, htaileq]
              · rw [List.filter_cons, if_neg (by simp [htgen, Ne.symm hg])]
                rw [SyncedF]
                exact Or.inr hsynF

theorem sync_forest (descs2 descs1 : List TestItemInfo) (gen2 gen1 : Nat)
    (pu : Option Uri) (hd : Bool) (ts : List GTestItem) (reg : GRegistry)
    (hsub : ForestSub descs2 descs1) (hm : MirrorF gen1 descs1 ts)
    (hnd : NodupIdsF descs1) (hg : gen2 ≠ gen1) :
    SyncedF gen2 descs2 ts (syncItemChildren descs2 gen2 pu hd ts reg).1 := by
  obtain ⟨ts1, reg2, heq, hs⟩ := (sync_preserves (sizeOf descs1)).2 descs2 descs1 gen2 gen1
    pu hd ts reg le_rfl hsub hm hnd hg
  have hfst : (syncItemChildren descs2 gen2 pu hd ts reg).1
      = ts1.filter (fun v => decide (GTestItem.generation v = gen2)) := by
    rw [syncItemChildren, heq]
    simp [pruneGo_fst]
  rw [hfst]
  exact hs

/-- C1 (amended): identity is matched per parent, so it is preserved
exactly when pass 2 does not reparent.  For two consecutive discovery
passes on a fresh converter where pass 2's descriptor tree is obtained
from pass 1's by deleting whole subtrees (`DescSub`, which keeps every
surviving node under the same parent and in order), pass 1 builds a tree
mirroring its descriptor, and pass 2 reconciles it so that every
surviving node is the same identity object (the same `createTestItem`
allocation, `SyncedI`'s `oid` equation) restamped with the new
generation, while every child not named by pass 2 is removed by the
generation sweep (`SyncedF` keeps exactly the matched children).  Moving
an id to a different parent instead creates a fresh object. -/
theorem subset_pass_preserves_identity (d1 d2 : TestItemInfo) (g1 g2 : Nat) (hd : Bool)
    (reg0 : GRegistry) (hnd : NodupIdsF [d1]) (hsub : DescSub d2 d1) (hg : g2 ≠ g1) :
    MirrorF g1 [d1] (loadFinished hd d1 g1 [] reg0).1 ∧
    SyncedF g2 [d2] (loadFinished hd d1 g1 [] reg0).1
      (loadFinished hd d2 g2 (loadFinished hd d1 g1 [] reg0).1
        (loadFinished hd d1 g1 [] reg0).2).1 := by
  obtain ⟨t1, reg1, heq1, hmir⟩ := (build_mirror (sizeOf ([d1] : List TestItemInfo))).2.2
    [d1] g1 none hd reg0 le_rfl hnd
  have hfs : ForestSub [d2] [d1] := by
    rw [ForestSub]
    refine Or.inl ⟨hsub, ?_⟩
    rw [ForestSub]
    trivial
  constructor
  · rw [loadFinished, heq1]
    exact hmir
  · rw [loadFinished, loadFinished, heq1]
    exact sync_forest [d2] [d1] g2 g1 none hd t1 reg1 hfs hmir hnd hg

/-- Witness for C1 at concrete inputs: pass 1 discovers `R[A, B]`, pass 2
discovers the subset `R[A]`. -/
theorem subset_pass_preserves_identity_witness :
    (NodupIdsF [TestItemInfo.suite ⟨"R", "R", none, none, none, false, none⟩
        [TestItemInfo.test ⟨"A", "A", none, none, none, false, none⟩,
         TestItemInfo.test ⟨"B", "B", none, none, none, false, none⟩]] ∧
     DescSub (TestItemInfo.suite ⟨"R", "R", none, none, none, false, none⟩
        [TestItemInfo.test ⟨"A", "A", none, none, none, false, none⟩])
       (TestItemInfo.suite ⟨"R", "R", none, none, none, false, none⟩
        [TestItemInfo.test ⟨"A", "A", none, none, none, false, none⟩,
         TestItemInfo.test ⟨"B", "B", none, none, none, false, none⟩])) ∧
    (MirrorF 0 [TestItemInfo.suite ⟨"R", "R", none, none, none, false, none⟩
        [TestItemInfo.test ⟨"A", "A", none, none, none, false, none⟩,
         TestItemInfo.test ⟨"B", "B", none, none, none, false, none⟩]]
      (loadFinished false (TestItemInfo.suite ⟨"R", "R", none, none, none, false, none⟩
        [TestItemInfo.test ⟨"A", "A", none, none, none, false, none⟩,
         TestItemInfo.test ⟨"B", "B", none, none, none, false, none⟩]) 0 [] ⟨0, []⟩).1 ∧
     SyncedF 1 [TestItemInfo.suite ⟨"R", "R", none, none, none, false, none⟩
        [TestItemInfo.test ⟨"A", "A", none, none, none, false, none⟩]]
      (loadFinished false (TestItemInfo.suite ⟨"R", "R", none, none, none, false, none⟩
        [TestItemInfo.test ⟨"A", "A", none, none, none, false, none⟩,
         TestItemInfo.test ⟨"B", "B", none, none, none, false, none⟩]) 0 [] ⟨0, []⟩).1
      (loadFinished false (TestItemInfo.suite ⟨"R", "R", none, none, none, false, none⟩
          [TestItemInfo.test ⟨"A", "A", none, none, none, false, none⟩]) 1
        (loadFinished false (TestItemInfo.suite ⟨"R", "R", none, none, none, false, none⟩
          [TestItemInfo.test ⟨"A", "A", none, none, none, false, none⟩,
           TestItemInfo.test ⟨"B", "B", none, none, none, false, none⟩]) 0 [] ⟨0, []⟩).1
        (loadFinished false (TestItemInfo.suite ⟨"R", "R", none, none, none, false, none⟩
          [TestItemInfo.test ⟨"A", "A", none, none, none, false, none⟩,
           TestItemInfo.test ⟨"B", "B", none, none, none, false, none⟩]) 0 [] ⟨0, []⟩).2).1) := by
  have hnd : NodupIdsF [TestItemInfo.suite ⟨"R", "R", none, none, none, false, none⟩
      [TestItemInfo.test ⟨"A", "A", none, none, none, false, none⟩,
       TestItemInfo.test ⟨"B", "B", none, none, none, false, none⟩]] := by
    simp [NodupIdsF, NodupIdsAll, TestItemInfo.childList, TestItemInfo.id, TestItemInfo.info]
  have hsub : DescSub (TestItemInfo.suite ⟨"R", "R", none, none, none, false, none⟩
      [TestItemInfo.test ⟨"A", "A", none, none, none, false, none⟩])
      (TestItemInfo.suite ⟨"R", "R", none, none, none, false, none⟩
      [TestItemInfo.test ⟨"A", "A", none, none, none, false, none⟩,
       TestItemInfo.test ⟨"B", "B", none, none, none, false, none⟩]) := by
    rw [DescSub]
    refine ⟨rfl, ?_⟩
    simp only [TestItemInfo.childList]
    rw [ForestSub]
    refine Or.inl ⟨?_, ?_⟩
    · rw [DescSub]
      refine ⟨rfl, ?_⟩
      simp only [TestItemInfo.childList]
      rw [ForestSub]
      trivial
    · rw [ForestSub]
      rw [ForestSub]
      trivial
  exact ⟨⟨hnd, hsub⟩,
    subset_pass_preserves_identity _ _ 0 1 false ⟨0, []⟩ hnd hsub (by decide)⟩

/-- With fuel above twice the size of the descriptor list, the fuel-indexed
evaluator `syncE` agrees with `syncItemChildren`. -/
theorem syncE_eq (n : Nat) :
    ∀ cs generation parentUri hasDebug cur reg, sizeOf cs * 2 + 1 < n →
      syncE n cs generation parentUri hasDebug cur reg
        = syncItemChildren cs generation parentUri hasDebug cur reg := by
  induction n using Nat.strong_induction_on with
  | _ n ih =>
    cases n with
    | zero => intro cs _ _ _ _ _ h; exact absurd h (by omega)
    | succ m =>
      intro cs generation parentUri hasDebug cur reg h
      have hAdd : ∀ l generation parentUri hasDebug cur reg, sizeOf l * 2 < m + 1 →
          addAllGo (fun a b c d e f => syncE m a b c d e f) l generation parentUri
              hasDebug cur reg
            = addAll l generation parentUri hasDebug cur reg := by
        intro l
        induction l with
        | nil => intro generation parentUri hasDebug cur reg _; rw [addAll]; rfl
        | cons d ds ihl =>
          intro generation parentUri hasDebug cur reg hl
          have hd : sizeOf d.childList * 2 + 1 < m := by
            have h1 := sizeOf_childList_lt d
            simp only [List.cons.sizeOf_spec] at hl
            omega
          have hrec : ∀ u dbg c r, syncE m d.childList generation u dbg c r
              = syncItemChildren d.childList generation u dbg c r :=
            fun u dbg c r => ih m (Nat.lt_succ_self m) d.childList generation u dbg c r hd
          have hItem : addItemGo (fun a b c d e f => syncE m a b c d e f) d generation
              parentUri hasDebug cur reg
              = addItem d generation parentUri hasDebug cur reg := by
            rw [addItem]
            unfold addItemGo
            simp only [hrec]
            try rfl
          rw [addAll]
          unfold addAllGo
          rw [hItem]
          rcases hI : addItem d generation parentUri hasDebug cur reg with ⟨cur1, reg1⟩
          dsimp only
          exact ihl generation parentUri hasDebug cur1 reg1 (by
            simp only [List.cons.sizeOf_spec] at hl; omega)
      rw [syncItemChildren]
      unfold syncE
      rw [hAdd cs generation parentUri hasDebug cur reg (by omega)]

/-- C1 counterexample: reparenting breaks identity even when the second
pass's ids are a strict subset of the first pass's.  Pass 1 discovers
`R[S[A]]`; pass 2 discovers `R[A]` (ids `{R, A}`, a strict subset of
`{R, S, A}`); the item with id `A` after pass 2 is a freshly allocated
object (`oid` 3), not the pass-1 object (`oid` 2): `addItem` matches by id
within `parent.children` only, so `A` is not found under `R` and is
recreated, while the old `A` is disposed with the stale subtree of `S`. -/
theorem reparent_breaks_identity :
    descIds (TestItemInfo.suite ⟨"R", "R", none, none, none, false, none⟩
      [TestItemInfo.suite ⟨"S", "S", none, none, none, false, none⟩
        [TestItemInfo.test ⟨"A", "A", none, none, none, false, none⟩]]) = ["R", "S", "A"] ∧
    descIds (TestItemInfo.suite ⟨"R", "R", none, none, none, false, none⟩
      [TestItemInfo.test ⟨"A", "A", none, none, none, false, none⟩]) = ["R", "A"] ∧
    ∃ old new : GTestItem,
      findByIdF (loadFinished false (TestItemInfo.suite ⟨"R", "R", none, none, none, false, none⟩
        [TestItemInfo.suite ⟨"S", "S", none, none, none, false, none⟩
          [TestItemInfo.test ⟨"A", "A", none, none, none, false, none⟩]]) 0 [] ⟨0, []⟩).1 "A"
        = some old ∧
      findByIdF (loadFinished false (TestItemInfo.suite ⟨"R", "R", none, none, none, false, none⟩
          [TestItemInfo.test ⟨"A", "A", none, none, none, false, none⟩]) 1
        (loadFinished false (TestItemInfo.suite ⟨"R", "R", none, none, none, false, none⟩
          [TestItemInfo.suite ⟨"S", "S", none, none, none, false, none⟩
            [TestItemInfo.test ⟨"A", "A", none, none, none, false, none⟩]]) 0 [] ⟨0, []⟩).1
        (loadFinished false (TestItemInfo.suite ⟨"R", "R", none, none, none, false, none⟩
          [TestItemInfo.suite ⟨"S", "S", none, none, none, false, none⟩
            [TestItemInfo.test ⟨"A", "A", none, none, none, false, none⟩]]) 0 [] ⟨0, []⟩).2).1 "A"
        = some new ∧
      GTestItem.oid old ≠ GTestItem.oid new := by
  have h1 : loadFinished false (TestItemInfo.suite ⟨"R", "R", none, none, none, false, none⟩
        [TestItemInfo.suite ⟨"S", "S", none, none, none, false, none⟩
          [TestItemInfo.test ⟨"A", "A", none, none, none, false, none⟩]]) 0 [] ⟨0, []⟩
      = ([GTestItem.mk ⟨0, "R", "R", none, none, none, none, false, 0⟩
            [GTestItem.mk ⟨1, "S", "S", none, none, none, none, false, 0⟩
              [GTestItem.mk ⟨2, "A", "A", none, none, none, none, false, 0⟩ []]]],
         ⟨3, [("R", 0), ("S", 1), ("A", 2)]⟩) := by
    rw [loadFinished,
      ← syncE_eq 100000 [TestItemInfo.suite ⟨"R", "R", none, none, none, false, none⟩
          [TestItemInfo.suite ⟨"S", "S", none, none, none, false, none⟩
            [TestItemInfo.test ⟨"A", "A", none, none, none, false, none⟩]]]
        0 none false [] ⟨0, []⟩ (by decide)]
    rfl
  have h2 : loadFinished false (TestItemInfo.suite ⟨"R", "R", none, none, none, false, none⟩
        [TestItemInfo.test ⟨"A", "A", none, none, none, false, none⟩]) 1
      [GTestItem.mk ⟨0, "R", "R", none, none, none, none, false, 0⟩
        [GTestItem.mk ⟨1, "S", "S", none, none, none, none, false, 0⟩
          [GTestItem.mk ⟨2, "A", "A", none, none, none, none, false, 0⟩ []]]]
      ⟨3, [("R", 0), ("S", 1), ("A", 2)]⟩
      = ([GTestItem.mk ⟨0, "R", "R", none, none, none, none, false, 1⟩
            [GTestItem.mk ⟨3, "A", "A", none, none, none, none, false, 1⟩ []]],
         ⟨4, [("R", 0), ("A", 3)]⟩) := by
    rw [loadFinished,
      ← syncE_eq 100000 [TestItemInfo.suite ⟨"R", "R", none, none, none, false, none⟩
          [TestItemInfo.test ⟨"A", "A", none, none, none, false, none⟩]] 1 none false
        [GTestItem.mk ⟨0, "R", "R", none, none, none, none, false, 0⟩
          [GTestItem.mk ⟨1, "S", "S", none, none, none, none, false, 0⟩
            [GTestItem.mk ⟨2, "A", "A", none, none, none, none, false, 0⟩ []]]]
        ⟨3, [("R", 0), ("S", 1), ("A", 2)]⟩ (by decide)]
    rfl
  refine ⟨by simp [descIds, descIdsF, TestItemInfo.id, TestItemInfo.info,
      TestItemInfo.childList],
    by simp [descIds, descIdsF, TestItemInfo.id, TestItemInfo.info, TestItemInfo.childList],
    GTestItem.mk ⟨2, "A", "A", none, none, none, none, false, 0⟩ [],
    GTestItem.mk ⟨3, "A", "A", none, none, none, none, false, 1⟩ [], ?_, ?_, by decide⟩
  · rw [h1]
    simp [findByIdF, findByIdI, GTestItem.id, GTestItem.fields]
  · rw [h1]
    dsimp only
    rw [h2]
    simp [findByIdF, findByIdI, GTestItem.id, GTestItem.fields]
end Conv.Gen

/-- Witness for C9 at concrete inputs: a URI with a scheme. -/
theorem fileToUri_parse_iff_scheme_witness :
    (fileToUri "https://example" = Uri.parse "https://example"
      ↔ BeginsWithScheme "https://example") ∧
    fileToUri "c:\\tests\\a.js" = Uri.file "c:\\tests\\a.js" :=
  fileToUri_parse_iff_scheme "https://example"

end TAC
